import Mathlib

/-!
Verification of the IMSE-CNM scraper's extraction core against its
natural-language specification.

The Python sources under `imse_scraper/` are shallowly embedded below:
pure text transformations become Lean functions on `List Char` / `String`,
the `clean_data` normalizer becomes a function on an explicit value type
`PyVal` (fallible where the Python code would raise), extractor bodies
become functions of an abstract parsed-document value, and the network /
BeautifulSoup collaborators are abstracted as environment records, exactly
as the specification's §2 declares them external.

Modelling conventions, used throughout:
* Python character classes `\w` / `\s` are modelled over their ASCII
  fragments (`[A-Za-z0-9_]` and `" \t\n\r\x0b\x0c"`); the claims under
  study only exercise ASCII inputs.
* `str.lower()` is modelled by `Char.toLower` (ASCII case mapping).
* Python string slicing `s[:n]` is `List.take n` on code points, which
  agrees with Python's code-point indexing.
-/

/-! ## Text primitives (imse_scraper/utils/parsers.py and shared regexes) -/

/-- ASCII fragment of Python's regex class `\w`: letters, digits, `_`. -/
def pyIsWordChar (c : Char) : Bool :=
  c.isAlphanum || c == '_'

/-- ASCII fragment of Python's regex class `\s` (and of `str.strip()`):
space, tab, newline, carriage return, vertical tab, form feed. -/
def pyIsSpace (c : Char) : Bool :=
  c == ' ' || c == '\t' || c == '\n' || c == '\r' || c == '\x0b' || c == '\x0c'

/-- `re.sub(cls+, r, s)` for a character class `cls`: every maximal run of
characters satisfying `p` is replaced by the single character `r`.
The flag `inRun` records whether the previous character was part of a run
whose replacement has already been emitted. -/
def collapseRunsAux (p : Char → Bool) (r : Char) : List Char → Bool → List Char
  | [], _ => []
  | c :: cs, inRun =>
    if p c then
      if inRun then collapseRunsAux p r cs true
      else r :: collapseRunsAux p r cs true
    else
      c :: collapseRunsAux p r cs false

def collapseRuns (p : Char → Bool) (r : Char) (l : List Char) : List Char :=
  collapseRunsAux p r l false

/-- Drop trailing characters satisfying `p`. -/
def dropTrailing (p : Char → Bool) (l : List Char) : List Char :=
  (l.reverse.dropWhile p).reverse

/-- Python `str.strip()` on the ASCII whitespace fragment. -/
def pyStrip (l : List Char) : List Char :=
  dropTrailing pyIsSpace (l.dropWhile pyIsSpace)

/-- `re.sub(r'\s+', ' ', s).strip()` on the character list. -/
def cleanWsList (l : List Char) : List Char :=
  pyStrip (collapseRuns pyIsSpace ' ' l)

/-- `re.sub(r'\s+', ' ', s).strip()` — the whitespace cleanup applied by
`clean_data` to every string it touches. -/
def cleanWs (s : String) : String :=
  String.mk (cleanWsList s.toList)

/-- The truncation marker appended by `clean_data`. -/
def truncMarker : List Char := ['.', '.', '.']

/-- `if len(v) > cap: v = v[:cap] + "..."` from `clean_data`. -/
def truncList (cap : Nat) (l : List Char) : List Char :=
  if cap < l.length then l.take cap ++ truncMarker else l

/-- Whitespace cleanup followed by truncation, on the character list. -/
def cleanFieldList (cap : Nat) (l : List Char) : List Char :=
  truncList cap (cleanWsList l)

/-- The full string cleanup of `clean_data` at the given length cap:
whitespace-run collapse, strip, then truncation with marker. -/
def cleanField (cap : Nat) (s : String) : String :=
  String.mk (cleanFieldList cap s.toList)

/-- `re.sub(r'\W+', ' ', s.lower()).strip()` — the normalized
deduplication key used by the projects, staff and publications extractors
(projects.py:307, staff.py:276, publications.py:198). -/
def normKey (s : String) : String :=
  String.mk (pyStrip (collapseRuns (fun c => !pyIsWordChar c) ' '
    (s.toList.map Char.toLower)))

/-! ## Deduplication loops (projects.py:301-314, staff.py:270-289,
publications.py:192-205)

All three extractors end with the same loop: walk the record list in
order, compute `normKey` of the identifying field, and keep a record iff
its key is non-empty and not seen before.  `fix` is the in-loop record
repair performed between the membership test and the append (the staff
extractor fills in missing fields there; the other two do nothing). -/

def dedupeByKeyAux (key : α → String) (fix : α → α) :
    List String → List α → List α
  | _, [] => []
  | seen, r :: rs =>
    let k := normKey (key r)
    if k ≠ "" ∧ k ∉ seen then
      fix r :: dedupeByKeyAux key fix (k :: seen) rs
    else
      dedupeByKeyAux key fix seen rs

def dedupeByKey (key : α → String) (fix : α → α) (l : List α) : List α :=
  dedupeByKeyAux key fix [] l

/-- A project record at the point the dedup loop of
`extract_projects` runs (all fields are strings there). -/
structure Project where
  title : String
  description : String
  period : String
  funding : String
  url : String
  principal_investigator : String
deriving Repr, DecidableEq

/-- `extract_projects`'s duplicate-removal pass (projects.py:301-314). -/
def dedupeProjects (l : List Project) : List Project :=
  dedupeByKey (fun p => p.title) id l

theorem dedupeByKeyAux_key_not_seen (key : α → String) (fix : α → α)
    (hfix : ∀ a, key (fix a) = key a) :
    ∀ (l : List α) (seen : List String) (r : α),
      r ∈ dedupeByKeyAux key fix seen l →
        normKey (key r) ≠ "" ∧ normKey (key r) ∉ seen := by
  intro l
  induction l with
  | nil => intro seen r h; simp [dedupeByKeyAux] at h
  | cons a as ih =>
    intro seen r h
    simp only [dedupeByKeyAux] at h
    by_cases hc : normKey (key a) ≠ "" ∧ normKey (key a) ∉ seen
    · rw [if_pos hc] at h
      rcases List.mem_cons.mp h with h | h
      · subst h; rw [hfix]; exact hc
      · have := ih _ _ h
        exact ⟨this.1, fun hm => this.2 (List.mem_cons_of_mem _ hm)⟩
    · rw [if_neg hc] at h
      exact ih _ _ h

theorem dedupeByKeyAux_pairwise (key : α → String) (fix : α → α)
    (hfix : ∀ a, key (fix a) = key a) :
    ∀ (l : List α) (seen : List String),
      (dedupeByKeyAux key fix seen l).Pairwise
        (fun a b => normKey (key a) ≠ normKey (key b)) := by
  intro l
  induction l with
  | nil => intro seen; simp [dedupeByKeyAux]
  | cons a as ih =>
    intro seen
    simp only [dedupeByKeyAux]
    by_cases hc : normKey (key a) ≠ "" ∧ normKey (key a) ∉ seen
    · rw [if_pos hc]
      refine List.Pairwise.cons ?_ (ih _)
      intro b hb he
      have hb' := dedupeByKeyAux_key_not_seen key fix hfix as _ b hb
      rw [hfix] at he
      exact hb'.2 (by rw [← he]; exact List.mem_cons_self _ _)
    · rw [if_neg hc]; exact ih _

theorem dedupeByKeyAux_first (key : α → String) (fix : α → α)
    (hfix : ∀ a, key (fix a) = key a) :
    ∀ (l : List α) (seen : List String) (r' : α),
      r' ∈ dedupeByKeyAux key fix seen l →
        ∃ r, r ∈ l ∧ r' = fix r ∧
          l.find? (fun q => normKey (key q) == normKey (key r')) = some r := by
  intro l
  induction l with
  | nil => intro seen r' h; simp [dedupeByKeyAux] at h
  | cons a as ih =>
    intro seen r' h
    simp only [dedupeByKeyAux] at h
    by_cases hc : normKey (key a) ≠ "" ∧ normKey (key a) ∉ seen
    · rw [if_pos hc] at h
      rcases List.mem_cons.mp h with h | h
      · refine ⟨a, List.mem_cons_self _ _, h, ?_⟩
        have : (fun q => normKey (key q) == normKey (key r')) a = true := by
          simp [h, hfix]
        simp [List.find?_cons, this]
      · rcases ih _ _ h with ⟨r, hrmem, hrfix, hfind⟩
        have hne : normKey (key a) ≠ normKey (key r') := by
          have hkr := dedupeByKeyAux_key_not_seen key fix hfix as _ r' h
          intro he
          exact hkr.2 (by rw [← he]; exact List.mem_cons_self _ _)
        refine ⟨r, List.mem_cons_of_mem _ hrmem, hrfix, ?_⟩
        have : (fun q => normKey (key q) == normKey (key r')) a = false := by
          simpa using hne
        simp [List.find?_cons, this, hfind]
    · rw [if_neg hc] at h
      rcases ih _ _ h with ⟨r, hrmem, hrfix, hfind⟩
      have hkr := dedupeByKeyAux_key_not_seen key fix hfix as _ r' h
      have hne : normKey (key a) ≠ normKey (key r') := by
        rcases not_and_or.mp hc with hc1 | hc2
        · have : normKey (key a) = "" := not_not.mp hc1
          rw [this]; exact fun he => hkr.1 he.symm
        · have hmem : normKey (key a) ∈ seen := not_not.mp hc2
          intro he
          exact hkr.2 (he ▸ hmem)
      refine ⟨r, List.mem_cons_of_mem _ hrmem, hrfix, ?_⟩
      have : (fun q => normKey (key q) == normKey (key r')) a = false := by
        simpa using hne
      simp [List.find?_cons, this, hfind]

/-- The two records of the spec's deduplication example
("Project Alpha 2020" vs "project   alpha 2020"). -/
def projAlpha : Project :=
  { title := "Project Alpha 2020", description := "d1", period := "",
    funding := "", url := "u1", principal_investigator := "" }

def projAlphaDup : Project :=
  { title := "project   alpha 2020", description := "d2", period := "",
    funding := "", url := "u2", principal_investigator := "" }

/-! ## The normalizer `clean_data` (imse_scraper/utils/parsers.py:7-110)

Python values reaching `clean_data` are modelled by `PyVal`.  A non-basic
object (anything other than str/int/float/bool/list/dict/None) is
`PyVal.obj r` where `r` is the text `str()` would produce for it; numeric
values are collapsed to `int` since no claim involves floats. -/

inductive PyVal where
  | str (s : String)
  | int (n : Int)
  | bool (b : Bool)
  | none
  | list (xs : List PyVal)
  | dict (kvs : List (String × PyVal))
  | obj (repr : String)

/-- Python truthiness (`if not data: continue`, parsers.py:27) for the
values `clean_data` inspects. Generic objects are truthy. -/
def isTruthy : PyVal → Bool
  | .str s => !s.toList.isEmpty
  | .int n => n != 0
  | .bool b => b
  | .none => false
  | .list xs => !xs.isEmpty
  | .dict kvs => !kvs.isEmpty
  | .obj _ => true

/-- parsers.py:39-40 — coerce a non-basic value to its string form. -/
def coerceBasic : PyVal → PyVal
  | .obj r => .str r
  | v => v

/-- parsers.py:37-51 — cleanup of one field of a record inside a
list-typed entity: stringify non-basic values, then clean strings at the
10000-char cap.  Non-string basic values (including nested lists and
dicts) are copied untouched. -/
def cleanListItemField (v : PyVal) : PyVal :=
  match coerceBasic v with
  | .str s => .str (cleanField 10000 s)
  | v' => v'

/-- parsers.py:33-53 — cleanup of one record of a list-typed entity.
Python iterates `item.items()`, which raises `AttributeError` when the
item is not a dict; this is modelled as `Option.none`. -/
def cleanRecord : PyVal → Option PyVal
  | .dict kvs => some (.dict (kvs.map fun kv => (kv.1, cleanListItemField kv.2)))
  | _ => Option.none

/-- parsers.py:63-72 — a dict nested in a dict-typed entity: its string
values are cleaned at the 10000-char cap, everything else is copied. -/
def cleanSubDictValue (v : PyVal) : PyVal :=
  match v with
  | .str s => .str (cleanField 10000 s)
  | v => v

/-- parsers.py:73-92 — an item of a list nested in a dict-typed entity:
strings are cleaned at the 5000-char cap, dicts have their string values
cleaned at the 5000-char cap, everything else is copied. -/
def cleanInnerListItem (v : PyVal) : PyVal :=
  match v with
  | .str s => .str (cleanField 5000 s)
  | .dict kvs =>
      .dict (kvs.map fun kv =>
        (kv.1, match kv.2 with
               | .str s => .str (cleanField 5000 s)
               | w => w))
  | v => v

/-- parsers.py:61-101 — cleanup of one value of a dict-typed entity. -/
def cleanDictValue (v : PyVal) : PyVal :=
  match v with
  | .dict kvs => .dict (kvs.map fun kv => (kv.1, cleanSubDictValue kv.2))
  | .list xs => .list (xs.map cleanInnerListItem)
  | .str s => .str (cleanField 10000 s)
  | v => v

/-- parsers.py:30-53 — cleanup of every record of a list-typed entity,
propagating the failure of `cleanRecord`. -/
def cleanRecords : List PyVal → Option (List PyVal)
  | [] => some []
  | v :: vs => do
      let r ← cleanRecord v
      let rs ← cleanRecords vs
      pure (r :: rs)

/-- parsers.py:26-103 — the whole `clean_data` loop over the aggregate
(an insertion-ordered dict, modelled as an association list with distinct
keys).  Falsy entries and entries that are neither list nor dict are
skipped; list entities fail (`Option.none`) when an item is not a dict,
mirroring the uncaught `AttributeError`. -/
def cleanData : List (String × PyVal) → Option (List (String × PyVal))
  | [] => some []
  | (k, v) :: rest =>
    if isTruthy v then
      match v with
      | .list items => do
          let cleaned ← cleanRecords items
          let restC ← cleanData rest
          pure ((k, PyVal.list cleaned) :: restC)
      | .dict kvs => do
          let restC ← cleanData rest
          pure ((k, PyVal.dict (kvs.map fun kv => (kv.1, cleanDictValue kv.2))) :: restC)
      | _ => cleanData rest
    else
      cleanData rest

/-! ## Idempotence toolkit for the string cleanup -/

theorem dropTrailing_eq_rdropWhile (p : Char → Bool) (l : List Char) :
    dropTrailing p l = l.rdropWhile p := rfl

/-- After a run has just been collapsed, the next emitted character does
not satisfy `p`. -/
theorem collapseRunsAux_head_true (p : Char → Bool) (r : Char) :
    ∀ (l : List Char) (c : Char),
      (collapseRunsAux p r l true).head? = some c → p c = false := by
  intro l
  induction l with
  | nil => intro c h; simp [collapseRunsAux] at h
  | cons a as ih =>
    intro c h
    simp only [collapseRunsAux] at h
    cases hp : p a with
    | true => rw [hp] at h; simp at h; exact ih c h
    | false =>
      rw [hp] at h
      simp only [Bool.false_eq_true, if_false, List.head?_cons, Option.some.injEq] at h
      rw [← h]; exact hp

/-- Every collapsed-output character satisfying `p` is the replacement. -/
theorem collapseRunsAux_mem_fixed (p : Char → Bool) (r : Char) :
    ∀ (l : List Char) (b : Bool) (c : Char),
      c ∈ collapseRunsAux p r l b → p c = true → c = r := by
  intro l
  induction l with
  | nil => intro b c h; simp [collapseRunsAux] at h
  | cons a as ih =>
    intro b c h hc
    simp only [collapseRunsAux] at h
    cases hp : p a with
    | true =>
      rw [hp] at h
      simp only [if_true] at h
      cases b with
      | true => simp at h; exact ih _ c h hc
      | false =>
        simp only [Bool.false_eq_true, if_false, List.mem_cons] at h
        rcases h with h | h
        · exact h
        · exact ih _ c h hc
    | false =>
      rw [hp] at h
      simp only [Bool.false_eq_true, if_false, List.mem_cons] at h
      rcases h with h | h
      · rw [h, hp] at hc; exact absurd hc (by simp)
      · exact ih _ c h hc

/-- The collapsed output has no two adjacent characters satisfying `p`. -/
theorem collapseRunsAux_chain (p : Char → Bool) (r : Char) :
    ∀ (l : List Char) (b : Bool),
      (collapseRunsAux p r l b).Chain'
        (fun a c => ¬(p a = true ∧ p c = true)) := by
  intro l
  induction l with
  | nil => intro b; simp [collapseRunsAux]
  | cons a as ih =>
    intro b
    simp only [collapseRunsAux]
    cases hp : p a with
    | true =>
      simp only [if_true]
      cases b with
      | true => simpa using ih true
      | false =>
        simp only [Bool.false_eq_true, if_false]
        refine List.chain'_cons'.mpr ⟨?_, ih true⟩
        intro c hc
        have := collapseRunsAux_head_true p r as c hc
        intro hcontra
        rw [this] at hcontra
        exact absurd hcontra.2 (by simp)
    | false =>
      simp only [Bool.false_eq_true, if_false]
      refine List.chain'_cons'.mpr ⟨?_, ih false⟩
      intro c _
      intro hcontra
      rw [hp] at hcontra
      exact absurd hcontra.1 (by simp)

/-- Collapsing is the identity on lists already in collapsed form
(every `p`-character is the replacement `r` and no two are adjacent),
provided a just-collapsed flag is only set when the head is clean. -/
theorem collapseRunsAux_eq_self (p : Char → Bool) (r : Char) :
    ∀ (l : List Char) (b : Bool),
      (∀ c ∈ l, p c = true → c = r) →
      l.Chain' (fun a c => ¬(p a = true ∧ p c = true)) →
      (b = true → ∀ c, l.head? = some c → p c = false) →
      collapseRunsAux p r l b = l := by
  intro l
  induction l with
  | nil => intro b _ _ _; simp [collapseRunsAux]
  | cons a as ih =>
    intro b hfix hchain hhead
    simp only [collapseRunsAux]
    cases hp : p a with
    | true =>
      simp only [if_true]
      cases b with
      | true =>
        have := hhead rfl a (by simp)
        rw [hp] at this; exact absurd this (by simp)
      | false =>
        simp only [Bool.false_eq_true, if_false]
        have ha : a = r := hfix a (by simp) hp
        rw [ha]
        congr 1
        refine ih true (fun c hc hpc => hfix c (List.mem_cons_of_mem _ hc) hpc)
          hchain.tail ?_
        intro _ c hc
        rcases as with _ | ⟨d, ds⟩
        · simp at hc
        · simp only [List.head?_cons, Option.some.injEq] at hc
          have := (List.chain'_cons.mp hchain).1
          rw [← hc]
          cases hpd : p d with
          | true => exact absurd ⟨hp, hpd⟩ this
          | false => rfl
    | false =>
      simp only [Bool.false_eq_true, if_false]
      congr 1
      exact ih false (fun c hc hpc => hfix c (List.mem_cons_of_mem _ hc) hpc)
        hchain.tail (by intro h; cases h)

theorem pyStrip_prefix_dropWhile (l : List Char) :
    pyStrip l <+: l.dropWhile pyIsSpace := by
  rw [pyStrip, dropTrailing_eq_rdropWhile]
  exact List.rdropWhile_prefix _ _

theorem pyStrip_isInfixOf (l : List Char) : pyStrip l <:+: l :=
  List.IsInfix.trans (List.IsPrefix.isInfix (pyStrip_prefix_dropWhile l))
    (List.IsSuffix.isInfix (List.dropWhile_suffix _))

theorem pyStrip_head_not (l : List Char) :
    ∀ c, (pyStrip l).head? = some c → pyIsSpace c = false := by
  intro c h
  have hd : (l.dropWhile pyIsSpace).head? = some c := by
    rcases pyStrip_prefix_dropWhile l with ⟨t, ht⟩
    rw [← ht]
    cases hps : pyStrip l with
    | nil => rw [hps] at h; simp at h
    | cons x xs =>
      rw [hps] at h
      simp only [List.head?_cons, Option.some.injEq] at h
      simpa using h
  have := List.head?_dropWhile_not pyIsSpace l
  rw [hd] at this
  exact this

theorem pyStrip_getLast_not (l : List Char) :
    ∀ c, (pyStrip l).getLast? = some c → pyIsSpace c = false := by
  intro c h
  have hne : pyStrip l ≠ [] := by
    intro he; rw [he] at h; simp at h
  have h3 := List.rdropWhile_last_not pyIsSpace (l.dropWhile pyIsSpace) hne
  rw [List.getLast?_eq_getLast _ hne] at h
  simp only [Option.some.injEq] at h
  have h4 : ¬ pyIsSpace ((pyStrip l).getLast hne) = true := h3
  rw [h] at h4
  simpa using h4

theorem pyStrip_eq_self (l : List Char)
    (hh : ∀ c, l.head? = some c → pyIsSpace c = false)
    (hl : ∀ c, l.getLast? = some c → pyIsSpace c = false) :
    pyStrip l = l := by
  have h1 : l.dropWhile pyIsSpace = l := by
    rw [List.dropWhile_eq_self_iff]
    intro hlen
    cases l with
    | nil => simp at hlen
    | cons a as =>
      have := hh a rfl
      simp [List.get, this]
  rw [pyStrip, h1, dropTrailing_eq_rdropWhile, List.rdropWhile_eq_self_iff]
  intro hne
  have := hl (l.getLast hne) (List.getLast?_eq_getLast l hne)
  simp [this]

theorem cleanWsList_mem_fixed (l : List Char) :
    ∀ c ∈ cleanWsList l, pyIsSpace c = true → c = ' ' := by
  intro c hc
  have hsub := (pyStrip_isInfixOf (collapseRuns pyIsSpace ' ' l)).sublist.subset hc
  exact collapseRunsAux_mem_fixed _ _ _ _ c hsub

theorem cleanWsList_chain (l : List Char) :
    (cleanWsList l).Chain' (fun a c => ¬(pyIsSpace a = true ∧ pyIsSpace c = true)) :=
  List.Chain'.infix (collapseRunsAux_chain pyIsSpace ' ' l false)
    (pyStrip_isInfixOf (collapseRuns pyIsSpace ' ' l))

theorem cleanWsList_eq_self (l : List Char)
    (hfix : ∀ c ∈ l, pyIsSpace c = true → c = ' ')
    (hchain : l.Chain' (fun a c => ¬(pyIsSpace a = true ∧ pyIsSpace c = true)))
    (hh : ∀ c, l.head? = some c → pyIsSpace c = false)
    (hl : ∀ c, l.getLast? = some c → pyIsSpace c = false) :
    cleanWsList l = l := by
  rw [cleanWsList, collapseRuns,
    collapseRunsAux_eq_self pyIsSpace ' ' l false hfix hchain (by intro h; cases h)]
  exact pyStrip_eq_self l hh hl

theorem cleanWsList_idem (l : List Char) :
    cleanWsList (cleanWsList l) = cleanWsList l :=
  cleanWsList_eq_self _ (cleanWsList_mem_fixed l) (cleanWsList_chain l)
    (pyStrip_head_not _) (pyStrip_getLast_not _)

theorem cleanFieldList_idem (cap : Nat) (l : List Char) :
    cleanFieldList cap (cleanFieldList cap l) = cleanFieldList cap l := by
  by_cases hcap : cap < (cleanWsList l).length
  · have hu : cleanFieldList cap l = (cleanWsList l).take cap ++ truncMarker := by
      rw [cleanFieldList, truncList, if_pos hcap]
    have h1 : cleanWsList ((cleanWsList l).take cap ++ truncMarker) =
        (cleanWsList l).take cap ++ truncMarker := by
      apply cleanWsList_eq_self
      · intro c hc hsp
        rcases List.mem_append.mp hc with hc | hc
        · exact cleanWsList_mem_fixed l c (List.take_subset _ _ hc) hsp
        · simp only [truncMarker, List.mem_cons, List.not_mem_nil, or_false] at hc
          rcases hc with rfl | rfl | rfl <;> simp [pyIsSpace] at hsp
      · have hch := List.Chain'.infix (cleanWsList_chain l)
          (List.IsPrefix.isInfix ( List.take_prefix cap (cleanWsList l)))
        refine hch.append ?_ ?_
        · show List.Chain' _ ['.', '.', '.']
          refine List.chain'_cons.mpr ⟨?_, List.chain'_cons.mpr
            ⟨?_, List.chain'_singleton _⟩⟩ <;>
            exact fun hco => absurd hco.1 (by simp [pyIsSpace])
        intro x _ y hy
        simp only [truncMarker, List.head?_cons, Option.mem_def, Option.some.injEq] at hy
        intro hcontra
        rw [← hy] at hcontra
        exact absurd hcontra.2 (by simp [pyIsSpace])
      · intro c hc
        cases htake : (cleanWsList l).take cap with
        | nil =>
          rw [htake] at hc
          simp only [List.nil_append, truncMarker, List.head?_cons,
            Option.some.injEq] at hc
          rw [← hc]; simp [pyIsSpace]
        | cons x xs =>
          rw [htake] at hc
          simp only [List.cons_append, List.head?_cons, Option.some.injEq] at hc
          apply pyStrip_head_not (collapseRuns pyIsSpace ' ' l)
          have : (cleanWsList l).head? = some x := by
            rcases (List.take_prefix cap (cleanWsList l)) with ⟨t, ht⟩
            rw [← ht, htake]
            simp
          rw [← hc]
          exact this
      · intro c hc
        rw [List.getLast?_append_of_ne_nil _ (by simp [truncMarker])] at hc
        have hm : truncMarker.getLast? = some '.' := rfl
        rw [hm] at hc
        simp only [Option.some.injEq] at hc
        rw [← hc]; simp [pyIsSpace]
    rw [hu, cleanFieldList, h1, truncList]
    have hlen3 : ((cleanWsList l).take cap ++ truncMarker).length = cap + 3 := by
      simp [truncMarker, List.length_take, Nat.min_eq_left (Nat.le_of_lt hcap)]
    rw [if_pos (by rw [hlen3]; omega)]
    rw [List.take_append_of_le_length (by simp [List.length_take]; omega)]
    simp
  · have hu : cleanFieldList cap l = cleanWsList l := by
      rw [cleanFieldList, truncList, if_neg hcap]
    rw [hu, cleanFieldList, cleanWsList_idem, truncList, if_neg hcap]

theorem cleanField_idem (cap : Nat) (s : String) :
    cleanField cap (cleanField cap s) = cleanField cap s := by
  show String.mk (cleanFieldList cap (cleanFieldList cap s.toList)) =
    String.mk (cleanFieldList cap s.toList)
  exact congrArg String.mk (cleanFieldList_idem cap s.toList)

/-! ## Idempotence of `clean_data` (claim C3) -/

theorem cleanListItemField_idem (v : PyVal) :
    cleanListItemField (cleanListItemField v) = cleanListItemField v := by
  cases v <;> simp [cleanListItemField, coerceBasic, cleanField_idem]

theorem cleanRecord_idem (v w : PyVal) (h : cleanRecord v = some w) :
    cleanRecord w = some w := by
  cases v with
  | dict kvs =>
    simp only [cleanRecord, Option.some.injEq] at h
    subst h
    simp only [cleanRecord, List.map_map, Option.some.injEq, PyVal.dict.injEq]
    apply List.map_congr_left
    intro kv _
    simp [Function.comp, cleanListItemField_idem]
  | str s => simp [cleanRecord] at h
  | int n => simp [cleanRecord] at h
  | bool b => simp [cleanRecord] at h
  | none => simp [cleanRecord] at h
  | list xs => simp [cleanRecord] at h
  | obj r => simp [cleanRecord] at h

theorem cleanRecords_length :
    ∀ (vs ws : List PyVal), cleanRecords vs = some ws → ws.length = vs.length := by
  intro vs
  induction vs with
  | nil =>
    intro ws h
    simp only [cleanRecords, Option.some.injEq] at h
    subst h; rfl
  | cons v vs ih =>
    intro ws h
    simp only [cleanRecords] at h
    cases hv : cleanRecord v with
    | none => rw [hv] at h; simp at h
    | some r =>
      rw [hv] at h
      cases hvs : cleanRecords vs with
      | none => rw [hvs] at h; simp at h
      | some rs =>
        rw [hvs] at h
        have hws : r :: rs = ws := by simpa using h
        subst hws
        simp [ih rs hvs]

theorem cleanRecords_idem :
    ∀ (vs ws : List PyVal), cleanRecords vs = some ws → cleanRecords ws = some ws := by
  intro vs
  induction vs with
  | nil =>
    intro ws h
    simp only [cleanRecords, Option.some.injEq] at h
    subst h; rfl
  | cons v vs ih =>
    intro ws h
    simp only [cleanRecords] at h
    cases hv : cleanRecord v with
    | none => rw [hv] at h; simp at h
    | some r =>
      rw [hv] at h
      cases hvs : cleanRecords vs with
      | none => rw [hvs] at h; simp at h
      | some rs =>
        rw [hvs] at h
        have hws : r :: rs = ws := by simpa using h
        subst hws
        simp [cleanRecords, cleanRecord_idem v r hv, ih rs hvs]

theorem cleanSubDictValue_idem (v : PyVal) :
    cleanSubDictValue (cleanSubDictValue v) = cleanSubDictValue v := by
  cases v <;> simp [cleanSubDictValue, cleanField_idem]

theorem cleanInnerListItem_idem (v : PyVal) :
    cleanInnerListItem (cleanInnerListItem v) = cleanInnerListItem v := by
  cases v with
  | str s => simp [cleanInnerListItem, cleanField_idem]
  | dict kvs =>
    simp only [cleanInnerListItem, List.map_map, PyVal.dict.injEq]
    apply List.map_congr_left
    intro kv _
    cases hv : kv.2 <;> simp [Function.comp, hv, cleanField_idem]
  | int n => simp [cleanInnerListItem]
  | bool b => simp [cleanInnerListItem]
  | none => simp [cleanInnerListItem]
  | list xs => simp [cleanInnerListItem]
  | obj r => simp [cleanInnerListItem]

theorem cleanDictValue_idem (v : PyVal) :
    cleanDictValue (cleanDictValue v) = cleanDictValue v := by
  cases v with
  | str s => simp [cleanDictValue, cleanField_idem]
  | dict kvs =>
    simp only [cleanDictValue, List.map_map, PyVal.dict.injEq]
    apply List.map_congr_left
    intro kv _
    simp [Function.comp, cleanSubDictValue_idem]
  | list xs =>
    simp only [cleanDictValue, List.map_map, PyVal.list.injEq]
    apply List.map_congr_left
    intro x _
    simp [Function.comp, cleanInnerListItem_idem]
  | int n => simp [cleanDictValue]
  | bool b => simp [cleanDictValue]
  | none => simp [cleanDictValue]
  | obj r => simp [cleanDictValue]

theorem cleanData_idem :
    ∀ (xs ys : List (String × PyVal)), cleanData xs = some ys → cleanData ys = some ys := by
  intro xs
  induction xs with
  | nil =>
    intro ys h
    simp only [cleanData, Option.some.injEq] at h
    subst h; rfl
  | cons kv rest ih =>
    intro ys h
    obtain ⟨k, v⟩ := kv
    simp only [cleanData] at h
    by_cases ht : isTruthy v = true
    · rw [if_pos ht] at h
      cases v with
      | list items =>
        dsimp only at h
        cases hcr : cleanRecords items with
        | none => rw [hcr] at h; simp at h
        | some cleaned =>
          rw [hcr] at h
          cases hrest : cleanData rest with
          | none => rw [hrest] at h; simp at h
          | some restC =>
            rw [hrest] at h
            have hys : (k, PyVal.list cleaned) :: restC = ys := by simpa using h
            subst hys
            have htr : isTruthy (PyVal.list cleaned) = true := by
              simp only [isTruthy] at ht ⊢
              have hlen := cleanRecords_length items cleaned hcr
              cases cleaned with
              | nil =>
                cases items with
                | nil => simp at ht
                | cons i is => simp at hlen
              | cons c cs => simp
            simp only [cleanData, if_pos htr]
            rw [cleanRecords_idem items cleaned hcr, ih restC hrest]
            rfl
      | dict kvs =>
        dsimp only at h
        cases hrest : cleanData rest with
        | none => rw [hrest] at h; simp at h
        | some restC =>
          rw [hrest] at h
          have hys :
              (k, PyVal.dict (kvs.map fun kv => (kv.1, cleanDictValue kv.2))) :: restC
                = ys := by simpa using h
          subst hys
          have htr : isTruthy
              (PyVal.dict (kvs.map fun kv => (kv.1, cleanDictValue kv.2))) = true := by
            simp only [isTruthy] at ht ⊢
            cases kvs with
            | nil => simp at ht
            | cons a as => simp
          simp only [cleanData, if_pos htr]
          rw [ih restC hrest]
          have hmap : List.map ((fun kv : String × PyVal => (kv.1, cleanDictValue kv.2)) ∘
              (fun kv : String × PyVal => (kv.1, cleanDictValue kv.2))) kvs =
              List.map (fun kv : String × PyVal => (kv.1, cleanDictValue kv.2)) kvs := by
            apply List.map_congr_left
            intro kv _
            simp [Function.comp, cleanDictValue_idem]
          simp only [List.map_map, hmap]
          rfl
      | str s => exact ih ys h
      | int n => exact ih ys h
      | bool b => exact ih ys h
      | none => exact ih ys h
      | obj r => exact ih ys h
    · rw [if_neg ht] at h
      exact ih ys h

/-- C3: the normalizer is idempotent — re-running `clean_data` on any
aggregate it has successfully produced returns that aggregate unchanged
(whitespace collapse, trimming and truncation-with-marker are each
idempotent, also on values truncated in the first pass). -/
theorem clean_data_idempotent (xs ys : List (String × PyVal))
    (h : cleanData xs = some ys) : cleanData ys = some ys :=
  cleanData_idem xs ys h

/-- A small concrete aggregate exercising both entity shapes for the C3
witness. -/
def c3Input : List (String × PyVal) :=
  [("news", .list [.dict [("title", .str "  a   b  "), ("n", .int 3)]]),
   ("contact_info", .dict [("phone", .str " 1  2 ")])]

def c3Output : List (String × PyVal) :=
  [("news", .list [.dict [("title", .str "a b"), ("n", .int 3)]]),
   ("contact_info", .dict [("phone", .str "1 2")])]

/-- Witness for C3 at a concrete aggregate. -/
theorem clean_data_idempotent_witness :
    cleanData c3Input = some c3Output ∧ cleanData c3Output = some c3Output :=
  ⟨rfl, clean_data_idempotent c3Input c3Output rfl⟩

/-! ## Truncation caps of `clean_data` (claim C2) -/

theorem chain_no_space (l : List Char) (h : ∀ c ∈ l, pyIsSpace c = false) :
    l.Chain' (fun a c => ¬(pyIsSpace a = true ∧ pyIsSpace c = true)) := by
  induction l with
  | nil => simp
  | cons a as ih =>
    refine List.chain'_cons'.mpr
      ⟨?_, ih fun c hc => h c (List.mem_cons_of_mem _ hc)⟩
    intro b _ hco
    rw [h a (List.mem_cons_self _ _)] at hco
    exact absurd hco.1 (by simp)

/-- The whitespace cleanup leaves a whitespace-free string unchanged. -/
theorem cleanWsList_eq_self_of_no_space (l : List Char)
    (h : ∀ c ∈ l, pyIsSpace c = false) : cleanWsList l = l := by
  apply cleanWsList_eq_self
  · intro c hc hsp; rw [h c hc] at hsp; cases hsp
  · exact chain_no_space l h
  · intro c hc; exact h c (List.mem_of_mem_head? hc)
  · intro c hc; exact h c (List.mem_of_mem_getLast? hc)

/-- `cleanField` on a whitespace-free all-`'a'` string of length `n`. -/
theorem cleanField_replicate (cap n : Nat) :
    cleanField cap (String.mk (List.replicate n 'a')) =
      if cap < n then String.mk (List.replicate (min cap n) 'a' ++ truncMarker)
      else String.mk (List.replicate n 'a') := by
  have hns : ∀ c ∈ List.replicate n 'a', pyIsSpace c = false := by
    intro c hc
    rw [List.eq_of_mem_replicate hc]
    rfl
  show String.mk (cleanFieldList cap (List.replicate n 'a')) = _
  rw [cleanFieldList, cleanWsList_eq_self_of_no_space _ hns, truncList,
    List.length_replicate]
  by_cases hcap : cap < n
  · rw [if_pos hcap, if_pos hcap, List.take_replicate]
  · rw [if_neg hcap, if_neg hcap]

/-- 6000 `'a'`s. -/
def sixK : String := String.mk (List.replicate 6000 'a')

/-- 12000 `'a'`s. -/
def twelveK : String := String.mk (List.replicate 12000 'a')

/-- 10000 `'a'`s followed by the truncation marker. -/
def tenKdots : String := String.mk (List.replicate 10000 'a' ++ truncMarker)

/-- 5000 `'a'`s followed by the truncation marker. -/
def fiveKdots : String := String.mk (List.replicate 5000 'a' ++ truncMarker)

theorem cleanField_sixK_10000 : cleanField 10000 sixK = sixK := by
  rw [sixK, cleanField_replicate, if_neg (by omega)]

theorem cleanField_sixK_5000 : cleanField 5000 sixK = fiveKdots := by
  rw [sixK, cleanField_replicate, if_pos (by omega), fiveKdots]
  norm_num

theorem cleanField_twelveK_10000 : cleanField 10000 twelveK = tenKdots := by
  rw [twelveK, cleanField_replicate, if_pos (by omega), tenKdots]
  norm_num

/-- The aggregate of the C2 counterexample: a dict-typed entity holding a
nested dict whose string value has 6000 characters. -/
def c2NestedDict : List (String × PyVal) :=
  [("contact_info", .dict [("address", .dict [("bio", .str sixK)])])]

/-- Evaluation helper: `clean_data` on a one-entry aggregate holding a
non-empty dict-typed entity. -/
theorem cleanData_single_dict (k : String) (kvs : List (String × PyVal))
    (h : kvs ≠ []) :
    cleanData [(k, .dict kvs)] =
      some [(k, .dict (kvs.map fun kv => (kv.1, cleanDictValue kv.2)))] := by
  have ht : isTruthy (.dict kvs) = true := by simp [isTruthy, h]
  simp only [cleanData, if_pos ht]
  rfl

/-- Evaluation helper: `clean_data` on a one-entry aggregate holding a
list-typed entity with a single record. -/
theorem cleanData_single_list (k : String) (kvs : List (String × PyVal)) :
    cleanData [(k, .list [.dict kvs])] =
      some [(k, .list [.dict (kvs.map fun kv => (kv.1, cleanListItemField kv.2))])] := by
  have ht : isTruthy (.list [PyVal.dict kvs]) = true := rfl
  simp only [cleanData, if_pos ht]
  rfl

theorem sixK_length : sixK.toList.length = 6000 := by
  show (List.replicate 6000 'a').length = 6000
  rw [List.length_replicate]

theorem fiveKdots_length : fiveKdots.toList.length = 5003 := by
  show (List.replicate 5000 'a' ++ truncMarker).length = 5003
  rw [List.length_append, List.length_replicate]
  rfl

/-- Counterexample to C2: `clean_data` leaves the 6000-character string
nested inside a dict of a dict-typed entity completely unchanged (the
sub-dict branch of parsers.py:63-71 caps at 10000, not 5000), so the
output value is not the claimed 5000-character prefix plus marker. -/
theorem clean_data_nested_dict_string_not_capped_at_5000 :
    cleanData c2NestedDict = some c2NestedDict ∧
    sixK.toList.length = 6000 ∧
    fiveKdots.toList.length = 5003 ∧
    sixK ≠ fiveKdots := by
  refine ⟨?_, sixK_length, fiveKdots_length, ?_⟩
  · rw [c2NestedDict, cleanData_single_dict _ _ (by simp)]
    simp only [List.map_cons, List.map_nil, cleanDictValue, cleanSubDictValue,
      cleanField_sixK_10000]
  · intro h
    have hlen : sixK.toList.length = fiveKdots.toList.length := by rw [h]
    rw [sixK_length, fiveKdots_length] at hlen
    exact absurd hlen (by omega)

/-- The aggregate with a 12000-char top-level record field. -/
def c2TopList : List (String × PyVal) :=
  [("news", .list [.dict [("content", .str twelveK)]])]

/-- The aggregate with a 6000-char string inside a list value of a
dict-typed entity. -/
def c2InnerList : List (String × PyVal) :=
  [("contact_info", .dict [("emails", .list [.str sixK])])]

/-- The aggregate with a 12000-char string inside a nested dict of a
dict-typed entity. -/
def c2NestedDict12 : List (String × PyVal) :=
  [("contact_info", .dict [("address", .dict [("bio", .str twelveK)])])]

/-- The truncation rule of `clean_data` at an arbitrary cap: the cleaned
value is cut to its first `cap` characters and the marker is appended
exactly when the whitespace-normalized value exceeds `cap` characters. -/
theorem cleanField_spec (cap : Nat) (s : String) :
    cleanField cap s =
      if cap < (cleanWsList s.toList).length then
        String.mk ((cleanWsList s.toList).take cap ++ truncMarker)
      else String.mk (cleanWsList s.toList) := by
  rw [cleanField, cleanFieldList, truncList, apply_ite String.mk]

/-- C2 (amended): top-level string fields are capped at 10000 characters
plus marker (a 12000-character field value becomes its first 10000
characters plus `"..."`); the 5000-character cap applies to string values
inside a *list* belonging to a dict-typed entity (a 6000-character value
there becomes its first 5000 characters plus `"..."`); but a string inside
a nested *dict* of a dict-typed entity uses the 10000 cap, and list/dict
values nested inside records of list-typed entities are not truncated at
all. -/
theorem clean_data_truncation_caps :
    cleanData c2TopList =
      some [("news", .list [.dict [("content", .str tenKdots)]])] ∧
    cleanData c2InnerList =
      some [("contact_info", .dict [("emails", .list [.str fiveKdots])])] ∧
    cleanData c2NestedDict12 =
      some [("contact_info", .dict [("address", .dict [("bio", .str tenKdots)])])] ∧
    (∀ cap : Nat, ∀ s : String, cleanField cap s =
      if cap < (cleanWsList s.toList).length then
        String.mk ((cleanWsList s.toList).take cap ++ truncMarker)
      else String.mk (cleanWsList s.toList)) ∧
    (∀ xs : List PyVal, cleanListItemField (.list xs) = .list xs) ∧
    (∀ kvs : List (String × PyVal), cleanListItemField (.dict kvs) = .dict kvs) := by
  refine ⟨?_, ?_, ?_, cleanField_spec, fun _ => rfl, fun _ => rfl⟩
  · rw [c2TopList, cleanData_single_list]
    simp only [List.map_cons, List.map_nil, cleanListItemField, coerceBasic,
      cleanField_twelveK_10000]
  · rw [c2InnerList, cleanData_single_dict _ _ (by simp)]
    simp only [List.map_cons, List.map_nil, cleanDictValue, cleanInnerListItem,
      cleanField_sixK_5000]
  · rw [c2NestedDict12, cleanData_single_dict _ _ (by simp)]
    simp only [List.map_cons, List.map_nil, cleanDictValue, cleanSubDictValue,
      cleanField_twelveK_10000]

/-! ## Entity-type skipping by `clean_data` (claim C10) -/

/-- Whether a value reaches one of the two processed branches of
`clean_data` (parsers.py:30, parsers.py:57). -/
def isListOrDict : PyVal → Bool
  | .list _ => true
  | .dict _ => true
  | _ => false

theorem cleanData_sub_truthy :
    ∀ (xs ys : List (String × PyVal)), cleanData xs = some ys →
      (∀ k ∈ ys.map Prod.fst, k ∈ xs.map Prod.fst) ∧
      (∀ kv ∈ ys, isTruthy kv.2 = true) := by
  intro xs
  induction xs with
  | nil =>
    intro ys h
    simp only [cleanData, Option.some.injEq] at h
    subst h; simp
  | cons hd rest ih =>
    intro ys h
    obtain ⟨k, v⟩ := hd
    simp only [cleanData] at h
    by_cases ht : isTruthy v = true
    · rw [if_pos ht] at h
      cases v with
      | list items =>
        dsimp only at h
        cases hcr : cleanRecords items with
        | none => rw [hcr] at h; simp at h
        | some cleaned =>
          rw [hcr] at h
          cases hrest : cleanData rest with
          | none => rw [hrest] at h; simp at h
          | some restC =>
            rw [hrest] at h
            have hys : (k, PyVal.list cleaned) :: restC = ys := by simpa using h
            subst hys
            obtain ⟨iha, ihb⟩ := ih restC hrest
            constructor
            · intro k' hk'
              simp only [List.map_cons, List.mem_cons] at hk' ⊢
              rcases hk' with hk' | hk'
              · exact Or.inl hk'
              · exact Or.inr (iha k' hk')
            · intro kv hkv
              rcases List.mem_cons.mp hkv with hkv | hkv
              · subst hkv
                simp only [isTruthy] at ht ⊢
                have hlen := cleanRecords_length items cleaned hcr
                cases cleaned with
                | nil =>
                  cases items with
                  | nil => simp at ht
                  | cons i is => simp at hlen
                | cons c cs => simp
              · exact ihb kv hkv
      | dict kvs =>
        dsimp only at h
        cases hrest : cleanData rest with
        | none => rw [hrest] at h; simp at h
        | some restC =>
          rw [hrest] at h
          have hys :
              (k, PyVal.dict (kvs.map fun kv => (kv.1, cleanDictValue kv.2))) :: restC
                = ys := by simpa using h
          subst hys
          obtain ⟨iha, ihb⟩ := ih restC hrest
          constructor
          · intro k' hk'
            simp only [List.map_cons, List.mem_cons] at hk' ⊢
            rcases hk' with hk' | hk'
            · exact Or.inl hk'
            · exact Or.inr (iha k' hk')
          · intro kv hkv
            rcases List.mem_cons.mp hkv with hkv | hkv
            · subst hkv
              simp only [isTruthy] at ht ⊢
              cases kvs with
              | nil => simp at ht
              | cons a as => simp
            · exact ihb kv hkv
      | str s =>
        obtain ⟨iha, ihb⟩ := ih ys h
        refine ⟨fun k' hk' => ?_, ihb⟩
        simp only [List.map_cons, List.mem_cons]
        exact Or.inr (iha k' hk')
      | int n =>
        obtain ⟨iha, ihb⟩ := ih ys h
        refine ⟨fun k' hk' => ?_, ihb⟩
        simp only [List.map_cons, List.mem_cons]
        exact Or.inr (iha k' hk')
      | bool b =>
        obtain ⟨iha, ihb⟩ := ih ys h
        refine ⟨fun k' hk' => ?_, ihb⟩
        simp only [List.map_cons, List.mem_cons]
        exact Or.inr (iha k' hk')
      | none =>
        obtain ⟨iha, ihb⟩ := ih ys h
        refine ⟨fun k' hk' => ?_, ihb⟩
        simp only [List.map_cons, List.mem_cons]
        exact Or.inr (iha k' hk')
      | obj r =>
        obtain ⟨iha, ihb⟩ := ih ys h
        refine ⟨fun k' hk' => ?_, ihb⟩
        simp only [List.map_cons, List.mem_cons]
        exact Or.inr (iha k' hk')
    · rw [if_neg ht] at h
      obtain ⟨iha, ihb⟩ := ih ys h
      refine ⟨fun k' hk' => ?_, ihb⟩
      simp only [List.map_cons, List.mem_cons]
      exact Or.inr (iha k' hk')

theorem cleanData_skipped_keys :
    ∀ (xs ys : List (String × PyVal)), (xs.map Prod.fst).Nodup →
      cleanData xs = some ys →
      ∀ kv ∈ xs, (isListOrDict kv.2 = false ∨ isTruthy kv.2 = false) →
        kv.1 ∉ ys.map Prod.fst := by
  intro xs
  induction xs with
  | nil => intro ys _ _ kv hkv; simp at hkv
  | cons hd rest ih =>
    intro ys hnd h kv hkv hbad
    obtain ⟨k, v⟩ := hd
    simp only [List.map_cons, List.nodup_cons] at hnd
    obtain ⟨hk_not, hnd'⟩ := hnd
    simp only [cleanData] at h
    rcases List.mem_cons.mp hkv with heq | hmemr
    · subst heq
      have hskip : cleanData rest = some ys := by
        by_cases ht : isTruthy v = true
        · rw [if_pos ht] at h
          rcases hbad with hbad | hbad
          · cases v with
            | list items => simp [isListOrDict] at hbad
            | dict kvs => simp [isListOrDict] at hbad
            | str s => exact h
            | int n => exact h
            | bool b => exact h
            | none => exact h
            | obj r => exact h
          · rw [ht] at hbad; cases hbad
        · rw [if_neg ht] at h; exact h
      intro hmem
      exact hk_not ((cleanData_sub_truthy rest ys hskip).1 _ hmem)
    · have hkrest : kv.1 ∈ rest.map Prod.fst := List.mem_map_of_mem _ hmemr
      have hne : kv.1 ≠ k := fun he => hk_not (he ▸ hkrest)
      by_cases ht : isTruthy v = true
      · rw [if_pos ht] at h
        cases v with
        | list items =>
          dsimp only at h
          cases hcr : cleanRecords items with
          | none => rw [hcr] at h; simp at h
          | some cleaned =>
            rw [hcr] at h
            cases hrest : cleanData rest with
            | none => rw [hrest] at h; simp at h
            | some restC =>
              rw [hrest] at h
              have hys : (k, PyVal.list cleaned) :: restC = ys := by simpa using h
              subst hys
              intro hmem
              simp only [List.map_cons, List.mem_cons] at hmem
              rcases hmem with hmem | hmem
              · exact hne hmem
              · exact ih restC hnd' hrest kv hmemr hbad hmem
        | dict kvs =>
          dsimp only at h
          cases hrest : cleanData rest with
          | none => rw [hrest] at h; simp at h
          | some restC =>
            rw [hrest] at h
            have hys :
                (k, PyVal.dict (kvs.map fun kv => (kv.1, cleanDictValue kv.2))) :: restC
                  = ys := by simpa using h
            subst hys
            intro hmem
            simp only [List.map_cons, List.mem_cons] at hmem
            rcases hmem with hmem | hmem
            · exact hne hmem
            · exact ih restC hnd' hrest kv hmemr hbad hmem
        | str s => exact ih ys hnd' h kv hmemr hbad
        | int n => exact ih ys hnd' h kv hmemr hbad
        | bool b => exact ih ys hnd' h kv hmemr hbad
        | none => exact ih ys hnd' h kv hmemr hbad
        | obj r => exact ih ys hnd' h kv hmemr hbad
      · rw [if_neg ht] at h
        exact ih ys hnd' h kv hmemr hbad

/-- C10: `clean_data` drops every entity whose raw value is falsy and
every entry that is neither a list nor a dict: the cleaned aggregate's
key set is a subset of the input's keys, every surviving key maps to
non-empty (truthy) data, and a skipped entity's key is absent from the
output. -/
theorem clean_data_key_set (xs ys : List (String × PyVal))
    (hnd : (xs.map Prod.fst).Nodup) (h : cleanData xs = some ys) :
    (∀ k ∈ ys.map Prod.fst, k ∈ xs.map Prod.fst) ∧
    (∀ kv ∈ ys, isTruthy kv.2 = true) ∧
    (∀ kv ∈ xs, (isListOrDict kv.2 = false ∨ isTruthy kv.2 = false) →
      kv.1 ∉ ys.map Prod.fst) :=
  ⟨(cleanData_sub_truthy xs ys h).1, (cleanData_sub_truthy xs ys h).2,
   cleanData_skipped_keys xs ys hnd h⟩

/-- Concrete aggregate for the C10 witness: an empty list entity, a
string entity and a good list entity. -/
def c10Input : List (String × PyVal) :=
  [("projects", .list []),
   ("timestamp", .str "2024"),
   ("news", .list [.dict [("title", .str "hi")]])]

def c10Output : List (String × PyVal) :=
  [("news", .list [.dict [("title", .str "hi")]])]

/-- Witness for C10: the empty-list entity and the string entity are
absent from the cleaned aggregate. -/
theorem clean_data_key_set_witness :
    cleanData c10Input = some c10Output ∧
    "projects" ∉ c10Output.map Prod.fst ∧
    "timestamp" ∉ c10Output.map Prod.fst :=
  ⟨rfl,
   (clean_data_key_set c10Input c10Output (by simp [c10Input]) rfl).2.2
     ("projects", .list []) (by simp [c10Input]) (Or.inr rfl),
   (clean_data_key_set c10Input c10Output (by simp [c10Input]) rfl).2.2
     ("timestamp", .str "2024") (by simp [c10Input]) (Or.inl rfl)⟩

/-! ## Empty-key records are dropped by deduplication (claim C9) -/

/-- A publication record as built by `extract_publications` (all fields
are present by construction in every strategy). -/
structure Publication where
  authors : String
  title : String
  venue : String
  year : String
  doi : String
  url : String
  full_text : String
deriving Repr, DecidableEq

/-- `extract_publications`'s duplicate-removal pass
(publications.py:192-205). -/
def dedupePublications (l : List Publication) : List Publication :=
  dedupeByKey (fun p => p.title) id l

/-- A staff record as a Python dict (insertion-ordered association list);
some strategies can leave fields other than `name` absent, which the
dedup loop repairs. -/
abbrev StaffRec := List (String × String)

/-- `person['name']` at the dedup loop (staff.py:276); every strategy has
set the `name` key by this point, so the `getD` default is never taken. -/
def nameOf (r : StaffRec) : String :=
  (r.lookup "name").getD ""

/-- `if field not in person: person[field] = ""` (staff.py:282-284). -/
def ensureField (r : StaffRec) (f : String) : StaffRec :=
  if (r.lookup f).isSome then r else r ++ [(f, "")]

/-- The field completion performed inside the staff dedup loop
(staff.py:281-284). -/
def ensureStaffFields (r : StaffRec) : StaffRec :=
  ["position", "email", "phone", "department", "source_url"].foldl ensureField r

/-- `extract_staff`'s duplicate-removal pass (staff.py:270-289). -/
def dedupeStaff (l : List StaffRec) : List StaffRec :=
  dedupeByKey nameOf ensureStaffFields l

theorem nameOf_ensureField (r : StaffRec) (f : String) (hf : f ≠ "name") :
    nameOf (ensureField r f) = nameOf r := by
  rw [ensureField]
  by_cases h : (r.lookup f).isSome
  · rw [if_pos h]
  · rw [if_neg h, nameOf, List.lookup_append]
    have hbf : ("name" == f) = false := by
      rw [beq_eq_false_iff_ne]
      exact fun he => hf he.symm
    have : List.lookup "name" [(f, "")] = Option.none := by
      simp [List.lookup, hbf]
    rw [this, Option.or_none]
    rfl

theorem nameOf_ensureStaffFields (r : StaffRec) :
    nameOf (ensureStaffFields r) = nameOf r := by
  rw [ensureStaffFields]
  simp only [List.foldl_cons, List.foldl_nil]
  rw [nameOf_ensureField _ _ (by decide), nameOf_ensureField _ _ (by decide),
    nameOf_ensureField _ _ (by decide), nameOf_ensureField _ _ (by decide),
    nameOf_ensureField _ _ (by decide)]

/-- C9: in the dedup passes of the staff, projects and publications
extractors, every surviving record has a non-empty normalized key, and a
record whose identifying field normalizes to the empty string (for
example, punctuation only) is removed entirely. -/
theorem dedupe_drops_empty_normalized_keys :
    (∀ (l : List StaffRec) (r : StaffRec), r ∈ dedupeStaff l →
      normKey (nameOf r) ≠ "") ∧
    (∀ (l : List Project) (p : Project), p ∈ dedupeProjects l →
      normKey p.title ≠ "") ∧
    (∀ (l : List Publication) (p : Publication), p ∈ dedupePublications l →
      normKey p.title ≠ "") ∧
    dedupeStaff [[("name", "***"), ("position", "PI")]] = [] ∧
    dedupeProjects [{ projAlpha with title := "!!!!" }] = [] := by
  refine ⟨?_, ?_, ?_, by decide, by decide⟩
  · intro l r h
    exact (dedupeByKeyAux_key_not_seen nameOf ensureStaffFields
      nameOf_ensureStaffFields l [] r h).1
  · intro l p h
    exact (dedupeByKeyAux_key_not_seen (fun p : Project => p.title) id
      (fun _ => rfl) l [] p h).1
  · intro l p h
    exact (dedupeByKeyAux_key_not_seen (fun p : Publication => p.title) id
      (fun _ => rfl) l [] p h).1

/-- Witness for C9: a concrete surviving staff record has a non-empty
normalized name key. -/
theorem dedupe_drops_empty_normalized_keys_witness :
    ensureStaffFields [("name", "Ana")] ∈ dedupeStaff [[("name", "Ana")]] ∧
    normKey (nameOf (ensureStaffFields [("name", "Ana")])) ≠ "" :=
  ⟨by decide,
   dedupe_drops_empty_normalized_keys.1 [[("name", "Ana")]]
     (ensureStaffFields [("name", "Ana")]) (by decide)⟩

/-! ## Staff table detection (staff.py:49-131, claim C4) -/

/-- Python `needle in hay`. -/
def strContains (hay needle : String) : Bool :=
  decide (needle.toList <:+: hay.toList)

/-- Python `str.lower()`. -/
def pyLower (s : String) : String :=
  String.mk (s.toList.map Char.toLower)

/-- Python `str.strip()`. -/
def pyStripStr (s : String) : String :=
  String.mk (pyStrip s.toList)

/-- `cell.text.strip().lower()` (staff.py:69, staff.py:73). -/
def headerText (s : String) : String :=
  pyLower (pyStripStr s)

/-- Python `str.replace(pat, rep)` (all non-overlapping occurrences,
left to right); `fuel` bounds the scan by the input length. -/
def replaceListGo (pat rep : List Char) : Nat → List Char → List Char
  | 0, l => l
  | fuel + 1, l =>
    if pat ≠ [] ∧ pat.isPrefixOf l then rep ++ replaceListGo pat rep fuel (l.drop pat.length)
    else
      match l with
      | [] => []
      | c :: cs => c :: replaceListGo pat rep fuel cs

def pyReplace (s pat rep : String) : String :=
  String.mk (replaceListGo pat.toList rep.toList (s.toList.length + 1) s.toList)

/-- One `tr` of a table: its `th` cell texts, its `td` cell texts, and
the href of its first `a[href^="mailto:"]` element if any. -/
structure TableRow where
  thCells : List String
  tdCells : List String
  mailtoHref : Option String
deriving Repr, DecidableEq

/-- A parsed `table` element: its `tr` rows. -/
structure HtmlTable where
  rows : List TableRow
deriving Repr, DecidableEq

/-- staff.py:63-73 — headers come from the `th` cells of the first row
when present, otherwise from its `td` cells. -/
def tableHeaders (t : HtmlTable) : List String :=
  match t.rows.head? with
  | Option.none => []
  | some row =>
    if row.thCells ≠ [] then row.thCells.map headerText
    else row.tdCells.map headerText

/-- `" ".join(headers).lower()` (staff.py:76). -/
def headersJoined (headers : List String) : String :=
  pyLower (String.intercalate " " headers)

/-- staff.py:76-77 — the table-detection keyword test (English-only
keyword list in the source). -/
def isStaffTable (headers : List String) : Bool :=
  ["name", "position", "email", "phone", "department"].any
    (fun kw => strContains (headersJoined headers) kw)

/-- The column indices assigned by the header-mapping loop. -/
structure HeaderMap where
  name : Option Nat
  position : Option Nat
  email : Option Nat
  phone : Option Nat
  department : Option Nat
deriving Repr, DecidableEq

def emptyHeaderMap : HeaderMap :=
  ⟨Option.none, Option.none, Option.none, Option.none, Option.none⟩

/-- staff.py:84-94 — one step of the header-mapping loop: the first
matching `elif` branch assigns the column index (overwriting a previous
assignment of the same field). -/
def assignHeader (m : HeaderMap) (i : Nat) (h : String) : HeaderMap :=
  if ["name", "nombre"].any (fun n => strContains h n) then
    { m with name := some i }
  else if ["position", "cargo", "puesto"].any (fun n => strContains h n) then
    { m with position := some i }
  else if ["email", "e-mail", "correo"].any (fun n => strContains h n) then
    { m with email := some i }
  else if ["phone", "telefono", "teléfono"].any (fun n => strContains h n) then
    { m with phone := some i }
  else if ["department", "departamento", "group", "grupo"].any
      (fun n => strContains h n) then
    { m with department := some i }
  else m

/-- staff.py:83-94 — map headers to standard fields. -/
def headerMapping (headers : List String) : HeaderMap :=
  headers.enum.foldl (fun m p => assignHeader m p.1 p.2) emptyHeaderMap

/-- staff.py:55-98 — a table is processed only if it has at least 3 rows,
its header row mentions a detection keyword, and a name column is
mapped; otherwise the loop `continue`s to the next table. -/
def staffTableAccepted (t : HtmlTable) : Bool :=
  if t.rows.length < 3 then false
  else if !(isStaffTable (tableHeaders t)) then false
  else (headerMapping (tableHeaders t)).name.isSome

/-- staff.py:100-101 — data rows skip the first row iff it had `th`
header cells. -/
def tableDataRows (t : HtmlTable) : List TableRow :=
  match t.rows with
  | [] => []
  | r :: rs => if r.thCells ≠ [] then rs else r :: rs

def headerMapValues (m : HeaderMap) : List Nat :=
  [m.name, m.position, m.email, m.phone, m.department].filterMap id

/-- `max(header_mapping.values())` (staff.py:105); the mapping always
contains at least the name column when this is evaluated. -/
def maxMapped (m : HeaderMap) : Nat :=
  (headerMapValues m).foldl max 0

/-- `cells[idx].text.strip()` when the index is mapped and in range
(staff.py:111-113). -/
def fieldAt (cells : List String) (idx : Option Nat) : Option String :=
  match idx with
  | some i =>
    if i < cells.length then some (pyStripStr ((cells.get? i).getD "")) else Option.none
  | Option.none => Option.none

/-- The staff record produced for one table row. -/
structure StaffMember where
  name : String
  position : String
  email : String
  phone : String
  department : String
  source_url : String
deriving Repr, DecidableEq

/-- staff.py:102-131 — build a staff record from one data row: skip the
row if it has fewer cells than the largest mapped index needs; require a
non-empty name; fall back to the row's `mailto:` link for a missing or
empty email; default the remaining fields to the empty string. -/
def processStaffRow (m : HeaderMap) (usedUrl : String) (row : TableRow) :
    Option StaffMember :=
  if row.tdCells.length < maxMapped m + 1 then Option.none
  else
    match fieldAt row.tdCells m.name with
    | Option.none => Option.none
    | some n =>
      if n = "" then Option.none
      else
        let colEmail := (fieldAt row.tdCells m.email).getD ""
        let email :=
          if colEmail = "" then
            match row.mailtoHref with
            | some href => pyReplace href "mailto:" ""
            | Option.none => ""
          else colEmail
        some { name := n,
               position := (fieldAt row.tdCells m.position).getD "",
               email := email,
               phone := (fieldAt row.tdCells m.phone).getD "",
               department := (fieldAt row.tdCells m.department).getD "",
               source_url := usedUrl }

/-- Strategy 1 of `extract_staff`, restricted to one table: the records
contributed by a table (staff.py:55-131). -/
def extractStaffFromTable (usedUrl : String) (t : HtmlTable) : List StaffMember :=
  if staffTableAccepted t then
    (tableDataRows t).filterMap
      (processStaffRow (headerMapping (tableHeaders t)) usedUrl)
  else []

/-- The bilingual field-name synonym set of the specification. -/
def staffHeaderSynonyms : List String :=
  ["name", "nombre", "position", "cargo", "puesto", "email", "e-mail", "correo",
   "phone", "telefono", "teléfono", "department", "departamento", "group", "grupo"]

/-- The `["Nombre","Cargo","Email"]` example table, with two data rows. -/
def nombreTable : HtmlTable :=
  { rows := [⟨["Nombre", "Cargo", "Email"], [], Option.none⟩,
             ⟨[], ["Alice", "PI", "a@b.c"], Option.none⟩,
             ⟨[], ["Bob", "Tech", "b@b.c"], Option.none⟩] }

/-- The `["Color","Size"]` example table, with two data rows (3 rows in
total). -/
def colorTable : HtmlTable :=
  { rows := [⟨["Color", "Size"], [], Option.none⟩,
             ⟨[], ["red", "XL"], Option.none⟩,
             ⟨[], ["blue", "S"], Option.none⟩] }

/-- C4: `extract_staff` processes a table only when its header row
mentions at least one of the fixed field-name synonyms and a name column
is mapped; the `["Nombre","Cargo","Email"]` table is recognized with
columns mapped to name/position/email, the `["Color","Size"]` table is
rejected despite having 3 rows, and a table with no detected name column
contributes no records. -/
theorem staff_table_detection :
    (∀ (url : String) (t : HtmlTable), extractStaffFromTable url t ≠ [] →
      (∃ kw ∈ staffHeaderSynonyms,
        strContains (headersJoined (tableHeaders t)) kw = true) ∧
      (headerMapping (tableHeaders t)).name.isSome = true) ∧
    staffTableAccepted nombreTable = true ∧
    headerMapping (tableHeaders nombreTable) =
      { name := some 0, position := some 1, email := some 2,
        phone := Option.none, department := Option.none } ∧
    staffTableAccepted colorTable = false ∧
    colorTable.rows.length = 3 ∧
    (∀ (url : String) (t : HtmlTable),
      (headerMapping (tableHeaders t)).name = Option.none →
      extractStaffFromTable url t = []) := by
  refine ⟨?_, by decide, by decide, by decide, by decide, ?_⟩
  · intro url t h
    have ha : staffTableAccepted t = true := by
      by_contra hna
      rw [extractStaffFromTable, if_neg hna] at h
      exact h rfl
    rw [staffTableAccepted] at ha
    by_cases h3 : t.rows.length < 3
    · rw [if_pos h3] at ha; cases ha
    rw [if_neg h3] at ha
    cases hb : isStaffTable (tableHeaders t) with
    | false => rw [hb] at ha; simp at ha
    | true =>
    rw [hb] at ha
    simp only [Bool.not_true, Bool.false_eq_true, if_false] at ha
    have hstaff : isStaffTable (tableHeaders t) = true := hb
    refine ⟨?_, ha⟩
    rw [isStaffTable, List.any_eq_true] at hstaff
    obtain ⟨kw, hkw, hcon⟩ := hstaff
    have : kw = "name" ∨ kw = "position" ∨ kw = "email" ∨ kw = "phone" ∨
        kw = "department" := by simpa using hkw
    rcases this with rfl | rfl | rfl | rfl | rfl <;>
      exact ⟨_, by decide, hcon⟩
  · intro url t hn
    have hfalse : staffTableAccepted t = false := by
      rw [staffTableAccepted]
      by_cases h3 : t.rows.length < 3
      · rw [if_pos h3]
      · rw [if_neg h3]
        cases hb : isStaffTable (tableHeaders t)
        · simp
        · simp [hn]
    rw [extractStaffFromTable, if_neg (by rw [hfalse]; simp)]

/-- Witness for C4: the `["Nombre","Cargo","Email"]` table yields records
and therefore satisfies the detection conditions. -/
theorem staff_table_detection_witness :
    extractStaffFromTable "u" nombreTable ≠ [] ∧
    ((∃ kw ∈ staffHeaderSynonyms,
        strContains (headersJoined (tableHeaders nombreTable)) kw = true) ∧
      (headerMapping (tableHeaders nombreTable)).name.isSome = true) :=
  ⟨by decide, staff_table_detection.1 "u" nombreTable (by decide)⟩

/-! ## Funding and period extraction (project_contents.py:139-203, claim C6)

The two regex searches are embedded as explicit scanners with Python
`re` semantics (leftmost match, greedy quantifiers with backtracking,
non-overlapping `findall`). -/

/-- The character class `[A-Z0-9-]`. -/
def isRefClass (c : Char) : Bool :=
  ('A' ≤ c && c ≤ 'Z') || c.isDigit || c == '-'

def digitRunLen (l : List Char) : Nat :=
  (l.takeWhile Char.isDigit).length

/-- Backtracking tail of the reference-code pattern (class run, then a dash-or-slash separator, then digits):
try the longest class run first (`k` is the candidate class length), then
require a `-` or `/` separator followed by at least one digit. -/
def refTailGo (l : List Char) : Nat → Option Nat
  | 0 => Option.none
  | k + 1 =>
    match l.get? (k + 1) with
    | some c =>
      if (c == '-' || c == '/') && 0 < digitRunLen (l.drop (k + 2)) then
        some ((k + 2) + digitRunLen (l.drop (k + 2)))
      else refTailGo l k
    | Option.none => refTailGo l k

/-- The alternation prefixes of project_contents.py:152 (tried in order;
no two can match at the same position). -/
def refPrefixes : List (List Char) :=
  ["RTI", "TEC", "BES", "FPI", "FPU", "ERC", "H2020", "PID"].map String.toList

/-- Match of the reference-code pattern of project_contents.py:152
anchored at the start of `l`: total length and matched text. -/
def refMatchAt (l : List Char) : Option (Nat × List Char) :=
  match refPrefixes.find? (fun p => p.isPrefixOf l) with
  | some p =>
    let rest := l.drop p.length
    let run := (rest.takeWhile isRefClass).length
    match refTailGo rest run with
    | some n => some (p.length + n, l.take (p.length + n))
    | Option.none => Option.none
  | Option.none => Option.none

/-- `re.findall` driver: try a match at every position, left to right,
skipping over each match (non-overlapping); `fuel` bounds the scan. -/
def scanAllG (m : List Char → Option (Nat × List Char)) :
    Nat → List Char → List (List Char)
  | 0, _ => []
  | fuel + 1, l =>
    match m l with
    | some (n, g) => g :: scanAllG m fuel (l.drop (max n 1))
    | Option.none =>
      match l with
      | [] => []
      | _ :: t => scanAllG m fuel t

/-- The `re.findall` of the reference-code pattern (project_contents.py:152). -/
def findAllRefCodes (s : String) : List String :=
  (scanAllG refMatchAt (s.toList.length + 1) s.toList).map String.mk

/-- The currency alternation `(?:€|EUR|euros?|k€)` with `re.IGNORECASE`,
alternatives tried in order: consumed length. -/
def currencyLen (l : List Char) : Option Nat :=
  let low := l.map Char.toLower
  if ['€'].isPrefixOf low then some 1
  else if ['e', 'u', 'r'].isPrefixOf low then some 3
  else if ['e', 'u', 'r', 'o', 's'].isPrefixOf low then some 5
  else if ['e', 'u', 'r', 'o'].isPrefixOf low then some 4
  else if ['k', '€'].isPrefixOf low then some 2
  else Option.none

/-- Match of `(\d+(?:[,.]\d+)?)\s*(?:€|EUR|euros?|k€)` anchored at the
start of `l`: total length and the captured group 1. -/
def amountMatchAt (l : List Char) : Option (Nat × List Char) :=
  let d := digitRunLen l
  if d = 0 then Option.none
  else
    let groupLen :=
      match l.drop d with
      | c :: cs =>
        if (c == ',' || c == '.') && 0 < digitRunLen cs then
          d + 1 + digitRunLen cs
        else d
      | [] => d
    let afterGroup := l.drop groupLen
    let sp := (afterGroup.takeWhile pyIsSpace).length
    match currencyLen (afterGroup.drop sp) with
    | some cl => some (groupLen + sp + cl, l.take groupLen)
    | Option.none => Option.none

/-- `re.findall(r'(\d+(?:[,.]\d+)?)\s*(?:€|EUR|euros?|k€)', text, re.IGNORECASE)`
(project_contents.py:157). -/
def findAllAmounts (s : String) : List String :=
  (scanAllG amountMatchAt (s.toList.length + 1) s.toList).map String.mk

/-- Case-insensitive literal prefix match (ASCII case folding). -/
def matchesCI (needle l : List Char) : Bool :=
  (needle.map Char.toLower).isPrefixOf ((l.take needle.length).map Char.toLower)

/-- A `\b` boundary before the needle: start of text or a non-word
character. -/
def boundaryBefore : Option Char → Bool
  | Option.none => true
  | some c => !pyIsWordChar c

/-- A `\b` boundary after the match: end of text or a non-word character. -/
def boundaryAfter : List Char → Bool
  | [] => true
  | c :: _ => !pyIsWordChar c

/-- `re.search(r'\b' + re.escape(a) + r'\b', text, re.IGNORECASE)` as a
Boolean: scan every position, tracking the previous character. -/
def wbSearchAux (needle : List Char) : Option Char → List Char → Bool
  | prev, l =>
    (boundaryBefore prev && matchesCI needle l &&
      boundaryAfter (l.drop needle.length)) ||
    (match l with
     | [] => false
     | c :: cs => wbSearchAux needle (some c) cs)

def wbSearchStr (hay needle : String) : Bool :=
  wbSearchAux needle.toList Option.none hay.toList

/-- The fixed agency list of project_contents.py:162-166. -/
def fundingAgencies : List String :=
  ["Ministerio", "MINECO", "MICINN", "European Commission", "EU",
   "European Union", "H2020", "Horizon", "CDTI", "Junta", "Andalucía",
   "National", "Regional", "Internacional"]

/-- The result dict of `extract_funding_info`; a key set only when the
corresponding scan found something (`Option.none` models an absent key).
`List.dedup` models `list(set(...))`, whose ordering Python leaves
unspecified; only membership is relied upon. -/
structure FundingInfo where
  reference_codes : Option (List String)
  amounts : Option (List String)
  agencies : Option (List String)
deriving Repr, DecidableEq

/-- project_contents.py:139-176. -/
def extract_funding_info (text : String) : FundingInfo :=
  let refs := findAllRefCodes text
  let amts := findAllAmounts text
  let ags := fundingAgencies.filter (fun a => wbSearchStr text a)
  { reference_codes := if refs.isEmpty then Option.none else some refs.dedup,
    amounts := if amts.isEmpty then Option.none else some amts.dedup,
    agencies := if ags.isEmpty then Option.none else some ags }

/-- The dash alternatives of the year-range pattern (ASCII hyphen and
en dash). -/
def isDash (c : Char) : Bool :=
  c == '-' || c == '–'

/-- Match of the year-range pattern (four digits, optional spaces, a
dash, optional spaces, then either four digits or a word-character run)
anchored at the start of `l`: total length, group 1 and group 2. -/
def periodMatchAt (l : List Char) : Option (Nat × List Char × List Char) :=
  let d1 := l.take 4
  if d1.length = 4 && d1.all Char.isDigit then
    let rest1 := l.drop 4
    let sp1 := (rest1.takeWhile pyIsSpace).length
    match rest1.drop sp1 with
    | c :: cs =>
      if isDash c then
        let sp2 := (cs.takeWhile pyIsSpace).length
        let rest2 := cs.drop sp2
        let d2 := rest2.take 4
        if d2.length = 4 && d2.all Char.isDigit then
          some (4 + sp1 + 1 + sp2 + 4, d1, d2)
        else
          let w := rest2.takeWhile pyIsWordChar
          if w.length = 0 then Option.none
          else some (4 + sp1 + 1 + sp2 + w.length, d1, w)
      else Option.none
    | [] => Option.none
  else Option.none

/-- `re.search` of the year-range pattern: the first match, scanning
left to right (project_contents.py:192). -/
def searchPeriod : List Char → Option (List Char × List Char × List Char)
  | [] => Option.none
  | l@(_ :: t) =>
    match periodMatchAt l with
    | some (n, g1, g2) => some (l.take n, g1, g2)
    | Option.none => searchPeriod t

/-- All non-overlapping year-range matches, for stating what "all found
4-digit year ranges" would be. -/
def findAllYearRanges (s : String) : List String :=
  (scanAllG (fun l => (periodMatchAt l).map (fun x => (x.1, l.take x.1)))
    (s.toList.length + 1) s.toList).map String.mk

/-- Match of the duration pattern (`duración` or `duration`, a non-empty
run of colons/whitespace, then digits as group 1; the optional unit tail
does not affect the group) anchored at the start of `l`. -/
def durationMatchAt (l : List Char) : Option (List Char) :=
  let low := l.map Char.toLower
  if ['d', 'u', 'r', 'a', 'c', 'i', 'ó', 'n'].isPrefixOf low ||
     ['d', 'u', 'r', 'a', 't', 'i', 'o', 'n'].isPrefixOf low then
    let rest := l.drop 8
    let sepRun := (rest.takeWhile (fun c => c == ':' || pyIsSpace c)).length
    if sepRun = 0 then Option.none
    else
      let d := (rest.drop sepRun).takeWhile Char.isDigit
      if d.length = 0 then Option.none else some d
  else Option.none

/-- `re.search` of the duration pattern (project_contents.py:199). -/
def searchDuration : List Char → Option (List Char)
  | [] => Option.none
  | l@(_ :: t) =>
    match durationMatchAt l with
    | some d => some d
    | Option.none => searchDuration t

/-- The result dict of `extract_period_info` (`Option.none` models an
absent key). -/
structure PeriodInfo where
  full_period : Option String
  start_year : Option String
  end_year : Option String
  duration : Option String
deriving Repr, DecidableEq

/-- project_contents.py:179-203. -/
def extract_period_info (text : String) : PeriodInfo :=
  let d := (searchDuration text.toList).map String.mk
  match searchPeriod text.toList with
  | some (full, g1, g2) =>
    { full_period := some (String.mk full), start_year := some (String.mk g1),
      end_year := some (String.mk g2), duration := d }
  | Option.none =>
    { full_period := Option.none, start_year := Option.none,
      end_year := Option.none, duration := d }

/-- Every string stored in an `extract_period_info` result. -/
def periodInfoValues (p : PeriodInfo) : List String :=
  [p.full_period, p.start_year, p.end_year, p.duration].filterMap id

/-- Text with two year ranges, for the C6 counterexample. -/
def c6Text : String := "Fase 1 2010-2012 y fase 2 2015-2018"

/-- Counterexample to C6: the text contains two 4-digit year ranges but
`extract_period_info` records only the first (`re.search`, not
`re.findall`, at project_contents.py:192): nothing in its result mentions
the second range. -/
theorem period_extractor_keeps_only_first_range :
    findAllYearRanges c6Text = ["2010-2012", "2015-2018"] ∧
    extract_period_info c6Text =
      { full_period := some "2010-2012", start_year := some "2010",
        end_year := some "2012", duration := Option.none } ∧
    "2015-2018" ∉ periodInfoValues (extract_period_info c6Text) := by
  refine ⟨by decide, by decide, by decide⟩

/-- Text with two reference codes and one agency name, for the C6
amended-claim evaluation. -/
def c6FundingText : String :=
  "Proyecto financiado por el Ministerio, refs TEC2015-66455 y PID2019-12345"

/-- C6 (amended): the funding extractor keeps every found item — all
reference-code matches, all monetary-amount matches and every matched
agency of the fixed bilingual list appear in its result — while the
period extractor records only the *first* year-range match of the text
(and the first duration match), not all of them. -/
theorem funding_keeps_all_period_keeps_first :
    (∀ (s m : String), m ∈ findAllRefCodes s →
      m ∈ ((extract_funding_info s).reference_codes.getD [])) ∧
    (∀ (s m : String), m ∈ findAllAmounts s →
      m ∈ ((extract_funding_info s).amounts.getD [])) ∧
    (∀ (s a : String), a ∈ fundingAgencies → wbSearchStr s a = true →
      a ∈ ((extract_funding_info s).agencies.getD [])) ∧
    (∀ s : String, (extract_period_info s).full_period =
      (searchPeriod s.toList).map (fun x => String.mk x.1)) ∧
    extract_funding_info c6FundingText =
      { reference_codes := some ["TEC2015-66455", "PID2019-12345"],
        amounts := Option.none, agencies := some ["Ministerio"] } := by
  refine ⟨?_, ?_, ?_, ?_, by decide⟩
  · intro s m hm
    simp only [extract_funding_info]
    have hne : (findAllRefCodes s).isEmpty = false := by
      cases h : findAllRefCodes s with
      | nil => rw [h] at hm; simp at hm
      | cons a t => simp
    rw [if_neg (by simp [hne])]
    simpa [List.mem_dedup] using hm
  · intro s m hm
    simp only [extract_funding_info]
    have hne : (findAllAmounts s).isEmpty = false := by
      cases h : findAllAmounts s with
      | nil => rw [h] at hm; simp at hm
      | cons a t => simp
    rw [if_neg (by simp [hne])]
    simpa [List.mem_dedup] using hm
  · intro s a hag hsearch
    simp only [extract_funding_info]
    have hmem : a ∈ fundingAgencies.filter (fun a => wbSearchStr s a) :=
      List.mem_filter.mpr ⟨hag, hsearch⟩
    have hne : (fundingAgencies.filter (fun a => wbSearchStr s a)).isEmpty
        = false := by
      cases h : fundingAgencies.filter (fun a => wbSearchStr s a) with
      | nil => rw [h] at hmem; simp at hmem
      | cons x t => simp
    rw [if_neg (by simp [hne])]
    simpa using hmem
  · intro s
    unfold extract_period_info
    cases h : searchPeriod s.toList with
    | none => rfl
    | some x =>
      obtain ⟨full, g1, g2⟩ := x
      rfl

/-- Witness for the amended C6 at a concrete text with two reference
codes: both are kept. -/
theorem funding_keeps_all_period_keeps_first_witness :
    "TEC2015-66455" ∈ findAllRefCodes c6FundingText ∧
    "PID2019-12345" ∈ findAllRefCodes c6FundingText ∧
    "TEC2015-66455" ∈ ((extract_funding_info c6FundingText).reference_codes.getD []) ∧
    "PID2019-12345" ∈ ((extract_funding_info c6FundingText).reference_codes.getD []) :=
  ⟨by decide, by decide,
   funding_keeps_all_period_keeps_first.1 c6FundingText "TEC2015-66455" (by decide),
   funding_keeps_all_period_keeps_first.1 c6FundingText "PID2019-12345" (by decide)⟩

/-! ## Subpage extraction (subpages.py, scraper.py:226-292, claim C5)

The Page Fetcher and `urllib.parse.urljoin` are external collaborators
(spec §2/§6); they are abstracted as an environment: `fetch url useSelenium`
returns the parsed document or `Option.none` for a failed or empty fetch,
and `join` resolves a possibly-relative href against a base URL. -/

structure FetchEnv (δ : Type) where
  fetch : String → Bool → Option δ
  join : String → String → String

/-- A link element of the content area: its text, `title` attribute and
`href` attribute. -/
structure DocLink where
  text : String
  titleAttr : String
  href : String
deriving Repr, DecidableEq

/-- The queries `extract_subpage_content` makes against a parsed page. -/
structure SubDoc where
  titleTag : Option String
  h1Title : Option String
  contentTexts : List String
  bodyText : Option String
  contentLinks : List DocLink
deriving Repr, DecidableEq

structure SubLink where
  title : String
  url : String
deriving Repr, DecidableEq

/-- The record returned by `extract_subpage_content`. -/
structure Subpage where
  url : String
  title : String
  content : String
  subpages : List SubLink
deriving Repr, DecidableEq

/-- Split a character list at every occurrence of `c`
(Python `str.split`). -/
def splitOnCharGo (c : Char) : List Char → List (List Char)
  | [] => [[]]
  | x :: xs =>
    match splitOnCharGo c xs with
    | [] => [[]]
    | h :: t => if x == c then [] :: h :: t else (x :: h) :: t

/-- `url.split('/')[2]` (subpages.py:75); an out-of-range index — which
would raise in Python — is modelled as the empty string (no claim
exercises it). -/
def urlDomain (url : String) : String :=
  (((splitOnCharGo '/' url.toList).get? 2).map String.mk).getD ""

/-- `link_url.rstrip('/').split('/')[-1].replace('-',' ').replace('_',' ')`
(subpages.py:85). -/
def lastSegmentName (linkUrl : String) : String :=
  let l := dropTrailing (fun c => c == '/') linkUrl.toList
  let segs := splitOnCharGo '/' l
  let last := (segs.getLast?).getD []
  String.mk (last.map fun c => if c == '-' then ' ' else if c == '_' then ' ' else c)

/-- subpages.py:37-45 — page title from the `title` element, falling
back to `h1`/`.page-title`. -/
def subpageTitle (d : SubDoc) : String :=
  match d.titleTag with
  | some t => pyStripStr t
  | Option.none =>
    match d.h1Title with
    | some t => pyStripStr t
    | Option.none => ""

/-- subpages.py:47-57 — main content from the first content element,
falling back to the body text. -/
def subpageContent (d : SubDoc) : String :=
  match d.contentTexts.head? with
  | some c => pyStripStr c
  | Option.none =>
    match d.bodyText with
    | some b => pyStripStr b
    | Option.none => ""

/-- subpages.py:59-90 — collect content links into subpage entries:
skip empty/anchor/javascript/mailto/pdf hrefs, resolve against the page
URL, keep same-domain URLs only, drop URLs already collected, and derive
a title from the link text, its `title` attribute, or the last URL
segment. -/
def collectSubpages (join : String → String → String) (url : String)
    (links : List DocLink) : List SubLink :=
  links.foldl
    (fun acc link =>
      if link.href = "" || ("#".toList.isPrefixOf link.href.toList) ||
          ("javascript:".toList.isPrefixOf link.href.toList) ||
          strContains link.href "mailto:" || strContains link.href ".pdf" then acc
      else
        let linkUrl := join url link.href
        if !(strContains linkUrl (urlDomain url)) then acc
        else if acc.any (fun sp => sp.url == linkUrl) then acc
        else
          let t0 := pyStripStr link.text
          let t1 := if t0 ≠ "" then t0 else link.titleAttr
          let t2 := if t1 ≠ "" then t1 else lastSegmentName linkUrl
          acc ++ [{ title := t2, url := linkUrl }])
    []

/-- subpages.py:8-97 — `extract_subpage_content`, instrumented with the
list of fetch calls `(url, use_selenium)` it makes. Returns no result
when `current_depth > max_depth`; uses dynamic rendering exactly at
depth 0 (subpages.py:31); collects subpage links only below the depth
limit. -/
def extract_subpage_content (env : FetchEnv SubDoc) (url : String)
    (maxDepth currentDepth : Nat) : Option Subpage × List (String × Bool) :=
  if maxDepth < currentDepth then (Option.none, [])
  else
    let useSel := currentDepth == 0
    match env.fetch url useSel with
    | Option.none => (Option.none, [(url, useSel)])
    | some d =>
      (some { url := url, title := subpageTitle d, content := subpageContent d,
              subpages :=
                if currentDepth < maxDepth then
                  collectSubpages env.join url d.contentLinks
                else [] },
       [(url, useSel)])

/-- Python dict assignment `all_pages[url] = data`. -/
def insertOrReplace (agg : List (String × Subpage)) (k : String) (v : Subpage) :
    List (String × Subpage) :=
  if (agg.map Prod.fst).contains k then
    agg.map fun kv => if kv.1 == k then (k, v) else kv
  else agg ++ [(k, v)]

/-- scraper.py:268-286 — walk the depth-0 result's subpage links: a URL
already present in the aggregate is not fetched again; otherwise fetch at
depth 1 and add a successful result to the aggregate. -/
def processSubpagesGo (env : FetchEnv SubDoc) (maxDepth : Nat) :
    List (String × Subpage) → List SubLink →
    List (String × Subpage) × List (String × Bool)
  | agg, [] => (agg, [])
  | agg, sp :: sps =>
    if (agg.map Prod.fst).contains sp.url then
      processSubpagesGo env maxDepth agg sps
    else
      let (r, tr) := extract_subpage_content env sp.url maxDepth 1
      match r with
      | some data =>
        let (agg', tr') :=
          processSubpagesGo env maxDepth (insertOrReplace agg sp.url data) sps
        (agg', tr ++ tr')
      | Option.none =>
        let (agg', tr') := processSubpagesGo env maxDepth agg sps
        (agg', tr ++ tr')

/-- scraper.py:226-292 — `extract_all_subpages` over the section URLs.
The source submits the depth-0 fetches to a worker pool but mutates
`all_pages` only while walking the futures sequentially in submission
order, which this sequential model reproduces. -/
def extractAllSubpagesGo (env : FetchEnv SubDoc) (maxDepth : Nat) :
    List (String × Subpage) → List String →
    List (String × Subpage) × List (String × Bool)
  | agg, [] => (agg, [])
  | agg, u :: us =>
    let (r, tr) := extract_subpage_content env u maxDepth 0
    match r with
    | some data =>
      let agg1 := insertOrReplace agg u data
      if 1 < maxDepth ∧ data.subpages ≠ [] then
        let (agg2, tr2) := processSubpagesGo env maxDepth agg1 data.subpages
        let (agg3, tr3) := extractAllSubpagesGo env maxDepth agg2 us
        (agg3, tr ++ tr2 ++ tr3)
      else
        let (agg3, tr3) := extractAllSubpagesGo env maxDepth agg1 us
        (agg3, tr ++ tr3)
    | Option.none =>
      let (agg3, tr3) := extractAllSubpagesGo env maxDepth agg us
      (agg3, tr ++ tr3)

def extract_all_subpages (env : FetchEnv SubDoc) (sectionUrls : List String)
    (maxDepth : Nat) : List (String × Subpage) × List (String × Bool) :=
  extractAllSubpagesGo env maxDepth [] sectionUrls

/-- C5: subpage extraction requests dynamic rendering exactly at
recursion depth 0 and a static fetch at every depth at least 1; it
returns no result when `current_depth` exceeds `max_depth`; and a
subpage whose URL is already a key of the aggregate is skipped without
being fetched. -/
theorem subpage_depth_modes_and_aggregate_skip :
    (∀ (env : FetchEnv SubDoc) (url : String) (md cd : Nat), md < cd →
      extract_subpage_content env url md cd = (Option.none, [])) ∧
    (∀ (env : FetchEnv SubDoc) (url : String) (md cd : Nat), cd ≤ md →
      (extract_subpage_content env url md cd).2 = [(url, cd == 0)]) ∧
    (∀ (env : FetchEnv SubDoc) (md : Nat) (agg : List (String × Subpage))
        (sp : SubLink) (sps : List SubLink),
      (agg.map Prod.fst).contains sp.url = true →
      processSubpagesGo env md agg (sp :: sps) = processSubpagesGo env md agg sps) := by
  refine ⟨?_, ?_, ?_⟩
  · intro env url md cd h
    rw [extract_subpage_content, if_pos h]
  · intro env url md cd h
    rw [extract_subpage_content, if_neg (Nat.not_lt.mpr h)]
    dsimp only
    cases hf : env.fetch url (cd == 0) with
    | none => rfl
    | some d => rfl
  · intro env md agg sp sps h
    show (if (agg.map Prod.fst).contains sp.url then
            processSubpagesGo env md agg sps
          else _) = processSubpagesGo env md agg sps
    rw [if_pos h]

/-- An environment whose every fetch fails, and a concrete aggregate
entry, for the C5 witness. -/
def envNoFetch : FetchEnv SubDoc :=
  { fetch := fun _ _ => Option.none, join := fun a b => a ++ b }

def pageU : Subpage :=
  { url := "u", title := "t", content := "c", subpages := [] }

/-- Witness for C5: depth past the limit yields nothing, and an
already-present subpage URL is skipped. -/
theorem subpage_depth_modes_and_aggregate_skip_witness :
    extract_subpage_content envNoFetch "u" 0 1 = (Option.none, []) ∧
    processSubpagesGo envNoFetch 1 [("u", pageU)] [⟨"t", "u"⟩] =
      processSubpagesGo envNoFetch 1 [("u", pageU)] [] :=
  ⟨subpage_depth_modes_and_aggregate_skip.1 envNoFetch "u" 0 1 (by decide),
   subpage_depth_modes_and_aggregate_skip.2.2 envNoFetch 1 [("u", pageU)]
     ⟨"t", "u"⟩ [] (by decide)⟩

/-! ## Candidate-URL resolution (staff.py:21-45, publications.py:22-44,
research.py:23-75, contact.py:21-177, claim C7)

The extractor bodies below are functions of the used URL and the fetched
document only.  BeautifulSoup selector queries and the individual
`re.search` calls over element texts are modelled as pre-extracted fields
of the document value (they are deterministic functions of the document,
so this preserves exactly the dependency structure the claim is about). -/

/-- The `try each candidate in order, stop at the first document` loop
shared by the extractors, instrumented with the trace of
`(url, use_selenium)` fetch attempts.  Every attempt passes
`use_selenium=True` (staff.py:37, publications.py:36). -/
def findFirstDoc (fetch : String → Bool → Option δ) :
    List String → Option (String × δ) × List (String × Bool)
  | [] => (Option.none, [])
  | u :: us =>
    match fetch u true with
    | some d => (some (u, d), [(u, true)])
    | Option.none =>
      let (r, tr) := findFirstDoc fetch us
      (r, (u, true) :: tr)

/-- One `.person, .staff-member, …` container of staff Strategy 2
(staff.py:138-190): element query results and the two fallback
`re.search` results over the container text. -/
structure PersonContainer where
  nameElem : Option String
  positionElem : Option String
  mailtoHref : Option String
  emailTextMatch : Option String
  phoneElem : Option String
  phoneTextMatch : Option String
  deptElem : Option String
deriving Repr, DecidableEq

/-- One `li` of staff Strategy 3 (staff.py:199-229). -/
structure LiItem where
  text : String
  mailtoHref : Option String
  emailTextMatch : Option String
deriving Repr, DecidableEq

/-- One `ul` of staff Strategy 3. -/
structure UlBlock where
  text : String
  items : List LiItem
deriving Repr, DecidableEq

/-- The two `findall` results of staff Strategy 4 over the main content
text (staff.py:241-247), each a (name, info) pair list. -/
structure StaffTextMatches where
  pattern1Matches : List (String × String)
  pattern2Matches : List (String × String)
deriving Repr, DecidableEq

/-- The queries `extract_staff` makes against a fetched page. -/
structure StaffDoc where
  tables : List HtmlTable
  personContainers : List PersonContainer
  uls : List UlBlock
  mainContent : Option StaffTextMatches
deriving Repr, DecidableEq

/-- staff.py:143-190 — build a record from one person container;
containers without a name element are skipped. -/
def staffFromContainer (usedUrl : String) (c : PersonContainer) :
    Option StaffMember :=
  match c.nameElem with
  | Option.none => Option.none
  | some nm =>
    some { name := pyStripStr nm,
           position := (c.positionElem.map pyStripStr).getD "",
           email :=
             match c.mailtoHref with
             | some href => pyReplace href "mailto:" ""
             | Option.none => (c.emailTextMatch).getD "",
           phone :=
             match c.phoneElem with
             | some p => pyStripStr p
             | Option.none => (c.phoneTextMatch.map pyStripStr).getD "",
           department := (c.deptElem.map pyStripStr).getD "",
           source_url := usedUrl }

/-- `re.split(r'[,;:-]', text, 1)` (staff.py:207). -/
def splitNamePosition (t : String) : String × String :=
  let l := t.toList
  match l.findIdx? (fun c => c == ',' || c == ';' || c == ':' || c == '-') with
  | some i => (String.mk (l.take i), String.mk (l.drop (i + 1)))
  | Option.none => (t, "")

/-- staff.py:196-198 — a `ul` qualifies when its lowered text mentions a
staff term. -/
def ulIsStaff (u : UlBlock) : Bool :=
  ["professor", "doctor", "researcher", "phd"].any
    (fun t => strContains (pyLower u.text) t)

/-- staff.py:201-229 — build a record from one list item. -/
def staffFromLi (usedUrl : String) (li : LiItem) : Option StaffMember :=
  let text := pyStripStr li.text
  if text = "" ∨ text.toList.length < 5 then Option.none
  else
    let parts := splitNamePosition text
    some { name := pyStripStr parts.1,
           position := if parts.2 = "" then "" else pyStripStr parts.2,
           email :=
             match li.mailtoHref with
             | some href => pyReplace href "mailto:" ""
             | Option.none => (li.emailTextMatch).getD "",
           phone := "", department := "", source_url := usedUrl }

/-- staff.py:246-268 — build a record from one full-text pattern match:
an info group containing `@` is an email, otherwise a position. -/
def staffFromTextMatch (usedUrl : String) (m : String × String) : StaffMember :=
  let name := pyStripStr m.1
  let info := pyStripStr m.2
  if strContains info "@" then
    { name := name, position := "", email := info, phone := "",
      department := "", source_url := usedUrl }
  else
    { name := name, position := info, email := "", phone := "",
      department := "", source_url := usedUrl }

/-- The staff dedup pass over fully-populated records (staff.py:270-289;
the in-loop field completion is the identity here because every strategy
fills all six fields). -/
def dedupeStaffMembers (l : List StaffMember) : List StaffMember :=
  dedupeByKey (fun m => m.name) id l

/-- staff.py:47-289 — the strategy chain applied to the fetched page:
tables first; person containers or staff lists only when the tables gave
nothing; full-text patterns as the last resort; then deduplication. -/
def staffBody (usedUrl : String) (d : StaffDoc) : List StaffMember :=
  let s1 := d.tables.flatMap (extractStaffFromTable usedUrl)
  let s2 :=
    if s1.isEmpty then
      if !d.personContainers.isEmpty then
        d.personContainers.filterMap (staffFromContainer usedUrl)
      else
        (d.uls.filter ulIsStaff).flatMap
          (fun u => u.items.filterMap (staffFromLi usedUrl))
    else s1
  let s3 :=
    if s2.isEmpty then
      match d.mainContent with
      | some mc =>
        (mc.pattern1Matches ++ mc.pattern2Matches).map (staffFromTextMatch usedUrl)
      | Option.none => []
    else s2
  dedupeStaffMembers s3

/-- The candidate URLs of `extract_staff` (staff.py:21-29), in source
order. -/
def staffUrlCandidates (join : String → String → String) (baseUrl : String) :
    List String :=
  [join baseUrl "index.php/en/people", join baseUrl "index.php/es/personal",
   join baseUrl "index.php/en/staff", join baseUrl "personal",
   join baseUrl "staff", join baseUrl "people", join baseUrl "team"]

/-- staff.py:8-289 — `extract_staff`: resolve the candidate URLs, return
an empty list when every candidate fails, otherwise apply the strategy
chain to the single fetched document. -/
def extract_staff_model (env : FetchEnv StaffDoc) (baseUrl : String) :
    List StaffMember × List (String × Bool) :=
  match findFirstDoc env.fetch (staffUrlCandidates env.join baseUrl) with
  | (Option.none, tr) => ([], tr)
  | (some (usedUrl, d), tr) => (staffBody usedUrl d, tr)

/-- One publication container of Strategy 1 (publications.py:49-89): the
stripped container text and the per-field regex search results over it. -/
structure PubContainer where
  text : String
  authorsMatch : Option String
  titleQuoted : Option String
  titleAlt : Option String
  venueMatch : Option String
  yearMatch : Option String
  doiMatch : Option String
deriving Repr, DecidableEq

/-- The three `findall` results of Strategy 2 over the main content text
(publications.py:102-115), each a list of 4-group tuples. -/
structure PubTextMatches where
  pattern1Matches : List (String × String × String × String)
  pattern2Matches : List (String × String × String × String)
  pattern3Matches : List (String × String × String × String)
deriving Repr, DecidableEq

/-- A `a[href$=".pdf"]` link of Strategy 3 (publications.py:166-169). -/
structure PdfLink where
  href : String
  text : String
deriving Repr, DecidableEq

/-- The queries `extract_publications` makes against a fetched page. -/
structure PubDoc where
  pubContainers : List PubContainer
  mainContent : Option PubTextMatches
  pdfLinks : List PdfLink
deriving Repr, DecidableEq

/-- publications.py:54-89 — build a publication from one container:
quoted-title regex first, fallback title regex second; the record is
kept only when a title or authors were found; the raw text is capped at
1000 characters without a marker. -/
def pubFromContainer (usedUrl : String) (c : PubContainer) : Option Publication :=
  let pubText := pyStripStr c.text
  let title :=
    match c.titleQuoted with
    | some t => pyStripStr t
    | Option.none => (c.titleAlt.map pyStripStr).getD ""
  let authors := (c.authorsMatch.map pyStripStr).getD ""
  let pub : Publication :=
    { authors := authors, title := title,
      venue := (c.venueMatch.map pyStripStr).getD "",
      year := c.yearMatch.getD "", doi := c.doiMatch.getD "", url := usedUrl,
      full_text := String.mk (pubText.toList.take 1000) }
  if pub.title ≠ "" ∨ pub.authors ≠ "" then some pub else Option.none

/-- publications.py:121-144 — patterns 1 and 2 order their groups as
authors, title, venue, year. -/
def pubFromMatch12 (usedUrl : String)
    (m : String × String × String × String) : Publication :=
  { authors := pyStripStr m.1, title := pyStripStr m.2.1,
    venue := pyStripStr m.2.2.1, year := pyStripStr m.2.2.2, doi := "",
    url := usedUrl, full_text := m.1 ++ m.2.1 ++ m.2.2.1 ++ m.2.2.2 }

/-- publications.py:145-156 — pattern 3 orders its groups as year,
authors, title, venue. -/
def pubFromMatch3 (usedUrl : String)
    (m : String × String × String × String) : Publication :=
  { year := pyStripStr m.1, authors := pyStripStr m.2.1,
    title := pyStripStr m.2.2.1, venue := pyStripStr m.2.2.2, doi := "",
    url := usedUrl, full_text := m.1 ++ m.2.1 ++ m.2.2.1 ++ m.2.2.2 }

/-- publications.py:113-160 — Strategy 2's pattern loop: each pattern
with matches contributes up to `limit` records, and the loop stops once
at least `limit / 2` publications have accumulated after a productive
pattern. -/
def pubsStrategy2 (usedUrl : String) (limit : Nat) (mc : PubTextMatches) :
    List Publication :=
  let acc1 :=
    if mc.pattern1Matches.isEmpty then []
    else (mc.pattern1Matches.take limit).map (pubFromMatch12 usedUrl)
  if ¬mc.pattern1Matches.isEmpty ∧ limit / 2 ≤ acc1.length then acc1
  else
    let acc2 := acc1 ++
      (if mc.pattern2Matches.isEmpty then []
       else (mc.pattern2Matches.take limit).map (pubFromMatch12 usedUrl))
    if ¬mc.pattern2Matches.isEmpty ∧ limit / 2 ≤ acc2.length then acc2
    else acc2 ++
      (if mc.pattern3Matches.isEmpty then []
       else (mc.pattern3Matches.take limit).map (pubFromMatch3 usedUrl))

/-- The year-token boundary class of publications.py:178. -/
def isYearBoundaryChar (c : Char) : Bool :=
  pyIsSpace c || c == '_'

/-- Whether the year-token pattern matches at the start of `l`, given
the previous character (`Option.none` at the start of the text). -/
def yearTokenAt (prev : Option Char) (l : List Char) : Bool :=
  (match prev with
   | Option.none => true
   | some c => isYearBoundaryChar c) &&
  (let d := l.take 4
   d.length = 4 && d.all Char.isDigit &&
   (match l.drop 4 with
    | [] => true
    | c :: _ => isYearBoundaryChar c))

def searchYearTokenGo (prev : Option Char) : List Char → Option String
  | [] => Option.none
  | c :: cs =>
    if yearTokenAt prev (c :: cs) then some (String.mk ((c :: cs).take 4))
    else searchYearTokenGo (some c) cs

/-- `re.search` of the year-token pattern (four digits delimited by
start/end, whitespace or underscore), returning group 1
(publications.py:178). -/
def searchYearToken (hay : List Char) : Option String :=
  searchYearTokenGo Option.none hay

/-- publications.py:163-190 — Strategy 3 turns up to `cnt` pdf links with
descriptive text into publications; the title is capped at 150
characters and the year is searched in `href + " " + text`. -/
def pubsStrategy3 (join : String → String → String) (usedUrl : String)
    (cnt : Nat) (links : List PdfLink) : List Publication :=
  (links.take cnt).filterMap fun link =>
    let text := pyStripStr link.text
    if text ≠ "" ∧ 10 < text.toList.length then
      some { authors := "", title := String.mk (text.toList.take 150),
             venue := "",
             year := (searchYearToken (link.href ++ " " ++ text).toList).getD "",
             doi := "", url := join usedUrl link.href, full_text := text }
    else Option.none

/-- publications.py:46-205 — the strategy chain applied to the fetched
page: containers (only when more than 3), then full-text patterns, then
pdf links when fewer than `limit / 2` records were found; then
deduplication. -/
def publicationsBody (join : String → String → String) (usedUrl : String)
    (limit : Nat) (d : PubDoc) : List Publication :=
  let s1 :=
    if 3 < d.pubContainers.length then
      (d.pubContainers.take limit).filterMap (pubFromContainer usedUrl)
    else []
  let s2 :=
    if s1.isEmpty then
      match d.mainContent with
      | some mc => pubsStrategy2 usedUrl limit mc
      | Option.none => []
    else s1
  let s3 :=
    if s2.length < limit / 2 then
      s2 ++ pubsStrategy3 join usedUrl (limit - s2.length) d.pdfLinks
    else s2
  dedupePublications s3

/-- The candidate URLs of `extract_publications` (publications.py:22-28),
in source order. -/
def pubUrlCandidates (join : String → String → String) (baseUrl : String) :
    List String :=
  [join baseUrl "index.php/en/publications", join baseUrl "index.php/es/publicaciones",
   join baseUrl "publicaciones", join baseUrl "publications",
   join baseUrl "en/publications"]

/-- publications.py:8-205 — `extract_publications`. -/
def extract_publications_model (env : FetchEnv PubDoc) (baseUrl : String)
    (limit : Nat) : List Publication × List (String × Bool) :=
  match findFirstDoc env.fetch (pubUrlCandidates env.join baseUrl) with
  | (Option.none, tr) => ([], tr)
  | (some (usedUrl, d), tr) => (publicationsBody env.join usedUrl limit d, tr)

theorem findFirstDoc_all_fail {δ : Type} (fetch : String → Bool → Option δ) :
    ∀ urls : List String, (∀ v ∈ urls, fetch v true = Option.none) →
      findFirstDoc fetch urls = (Option.none, urls.map (fun u => (u, true))) := by
  intro urls
  induction urls with
  | nil => intro _; rfl
  | cons u us ih =>
    intro h
    simp only [findFirstDoc]
    rw [h u (List.mem_cons_self _ _)]
    dsimp only
    rw [ih (fun v hv => h v (List.mem_cons_of_mem _ hv))]
    rfl

theorem findFirstDoc_first_success {δ : Type} (fetch : String → Bool → Option δ) :
    ∀ (pre : List String) (u : String) (post : List String) (d : δ),
      (∀ v ∈ pre, fetch v true = Option.none) → fetch u true = some d →
      findFirstDoc fetch (pre ++ u :: post) =
        (some (u, d), pre.map (fun v => (v, true)) ++ [(u, true)]) := by
  intro pre
  induction pre with
  | nil =>
    intro u post d _ hu
    simp only [List.nil_append, findFirstDoc]
    rw [hu]
    rfl
  | cons p ps ih =>
    intro u post d hpre hu
    simp only [List.cons_append, findFirstDoc]
    rw [hpre p (List.mem_cons_self _ _)]
    dsimp only
    simp only [List.append_eq]
    rw [ih u post d (fun v hv => hpre v (List.mem_cons_of_mem _ hv)) hu]
    rfl

/-! ## Research-groups URL loop (research.py:23-75) and contact extractor
(contact.py:21-177) -/

/-- One h2/h3/h4 header of the research page together with the elements
`find_next` resolves from it (research.py:46-63): the following `p` text
and the following `ul` item texts. -/
structure HeaderBlock where
  text : String
  nextP : Option String
  nextUlItems : Option (List String)
deriving Repr, DecidableEq

/-- The queries `extract_research_groups` makes against a fetched page. -/
structure ResearchDoc where
  headers : List HeaderBlock
deriving Repr, DecidableEq

structure ResearchGroup where
  name : String
  description : String
  researchers : List String
deriving Repr, DecidableEq

/-- research.py:51 — a stripped header text qualifies as a group name
when it is longer than 10 characters and its lower-cased form starts
with neither `index` nor `table`. -/
def researchHeaderOk (t : String) : Bool :=
  decide (10 < t.toList.length) &&
  !("index".toList.isPrefixOf (pyLower t).toList) &&
  !("table".toList.isPrefixOf (pyLower t).toList)

/-- research.py:47-69 — the candidate group built from one qualifying
header. -/
def researchCandidate (h : HeaderBlock) : Option ResearchGroup :=
  let t := pyStripStr h.text
  if researchHeaderOk t then
    some { name := t,
           description := (h.nextP.map pyStripStr).getD "",
           researchers := (h.nextUlItems.getD []).map pyStripStr }
  else Option.none

/-- research.py:43-69 — the group candidates of one fetched page. -/
def groupCandidatesOf (d : ResearchDoc) : List ResearchGroup :=
  d.headers.filterMap researchCandidate

/-- research.py:35-75 — the candidate-URL loop of
`extract_research_groups`, instrumented with the fetch trace.  Unlike
the staff and publications loops it does NOT stop at the first fetched
document: it `continue`s past a document whose group candidates are
empty (the break at research.py:75 fires only when `group_candidates`
is non-empty). -/
def research_groups_url_loop (fetch : String → Bool → Option ResearchDoc) :
    List String → List ResearchGroup × List (String × Bool)
  | [] => ([], [])
  | u :: us =>
    match fetch u true with
    | Option.none =>
      let (r, tr) := research_groups_url_loop fetch us
      (r, (u, true) :: tr)
    | some d =>
      match (groupCandidatesOf d).isEmpty with
      | true =>
        let (r, tr) := research_groups_url_loop fetch us
        (r, (u, true) :: tr)
      | false => (groupCandidatesOf d, [(u, true)])

/-- The candidate URLs of `extract_research_groups` (research.py:23-30),
in source order. -/
def researchUrlCandidates (join : String → String → String) (baseUrl : String) :
    List String :=
  [join baseUrl "index.php/en/research", join baseUrl "index.php/es/investigacion",
   join baseUrl "investigacion", join baseUrl "research",
   join baseUrl "research-groups", join baseUrl "en/research-groups"]

/-- The environment of `extract_research_groups`: the fetcher, urljoin,
and the result of the site-structure fallback (research.py:77-170),
which runs its own network requests via `extract_main_sections` and the
provided staff data and is therefore an external collaborator here. -/
structure ResearchEnv where
  fetch : String → Bool → Option ResearchDoc
  join : String → String → String
  structureFallback : List ResearchGroup

/-- research.py:8-170 — `extract_research_groups`: run the URL loop; the
site-structure fallback is consulted only when the loop found no
groups. -/
def extract_research_groups_model (env : ResearchEnv) (baseUrl : String) :
    List ResearchGroup × List (String × Bool) :=
  match research_groups_url_loop env.fetch (researchUrlCandidates env.join baseUrl) with
  | ([], tr) => (env.structureFallback, tr)
  | (gs, tr) => (gs, tr)

/-- One div of `soup.select` for contact content (contact.py:59-140):
the winning regex search results over its text, the mailto link and the
social-network links found in it. -/
structure ContactDiv where
  addressMatch : Option String
  postalMatch : Option String
  cityMatch : Option String
  phoneMatch : Option String
  faxMatch : Option String
  mailtoHref : Option String
  emailTextMatch : Option String
  socialLinks : List (String × String)
deriving Repr, DecidableEq

/-- The queries `extract_contact_info` makes against a fetched page:
the contact-selector divs (contact.py:51), the footer divs of the
base-URL fallback (contact.py:56), and the page-wide social links of
the final fallback (contact.py:157). -/
structure ContactDoc where
  contactDivs : List ContactDiv
  footerDivs : List ContactDiv
  pageSocialLinks : List (String × String)
deriving Repr, DecidableEq

structure ContactInfo where
  institute_name : String
  address : String
  city : String
  postal_code : String
  country : String
  phone : String
  fax : String
  email : String
  website : String
  social_media : List (String × String)
deriving Repr, DecidableEq

/-- contact.py:29-40 — the contact record starts PREFILLED: the
institute name, the country `Spain` and the website (the base URL) are
set before any page is fetched. -/
def initialContactInfo (baseUrl : String) : ContactInfo :=
  { institute_name := "Institute of Microelectronics of Seville (IMSE-CNM)",
    address := "", city := "", postal_code := "", country := "Spain",
    phone := "", fax := "", email := "", website := baseUrl,
    social_media := [] }

/-- contact.py:59-140 — fold one div into the accumulated record: each
matched field overwrites the previous value, unmatched fields are kept
(so fields MERGE across divs and across visited documents), except
`social_media`, which is overwritten unconditionally (contact.py:140). -/
def applyContactDiv (ci : ContactInfo) (d : ContactDiv) : ContactInfo :=
  let ci :=
    match d.addressMatch with
    | some a => { ci with address := pyStripStr a }
    | Option.none => ci
  let ci :=
    match d.postalMatch with
    | some p => { ci with postal_code := pyStripStr p }
    | Option.none => ci
  let ci :=
    match d.cityMatch with
    | some c => { ci with city := pyStripStr c }
    | Option.none => ci
  let ci :=
    match d.phoneMatch with
    | some p => { ci with phone := pyStripStr p }
    | Option.none => ci
  let ci :=
    match d.faxMatch with
    | some f => { ci with fax := pyStripStr f }
    | Option.none => ci
  let ci :=
    match d.mailtoHref with
    | some href => { ci with email := pyReplace href "mailto:" "" }
    | Option.none =>
      match d.emailTextMatch with
      | some e => { ci with email := e }
      | Option.none => ci
  { ci with social_media := d.socialLinks }

/-- contact.py:51-56 — the divs processed for one URL: the contact
selectors, or the footer selectors when those are empty and the URL is
the base URL. -/
def contactDivsUsed (baseUrl u : String) (d : ContactDoc) : List ContactDiv :=
  if d.contactDivs.isEmpty && u == baseUrl then d.footerDivs else d.contactDivs

/-- contact.py:43-144 — the candidate-URL loop of
`extract_contact_info`, instrumented with the fetch trace.  The record
being built and the last fetched soup are threaded through: the loop
breaks only when the accumulated record has an address or a phone
(contact.py:143), so it continues past documents lacking both, CARRYING
the fields they contributed. -/
def contact_url_loop (fetch : String → Bool → Option ContactDoc)
    (baseUrl : String) :
    ContactInfo → Option ContactDoc → List String →
    ContactInfo × Option ContactDoc × List (String × Bool)
  | ci, s, [] => (ci, s, [])
  | ci, _, u :: us =>
    match fetch u true with
    | Option.none =>
      let (r, s, tr) := contact_url_loop fetch baseUrl ci Option.none us
      (r, s, (u, true) :: tr)
    | some d =>
      let ci' := (contactDivsUsed baseUrl u d).foldl applyContactDiv ci
      match (ci'.address != "") || (ci'.phone != "") with
      | true => (ci', some d, [(u, true)])
      | false =>
        let (r, s, tr) := contact_url_loop fetch baseUrl ci' (some d) us
        (r, s, (u, true) :: tr)

def upperAlpha (c : Char) : Bool := 'A' ≤ c && c ≤ 'Z'

def lowerAlpha (c : Char) : Bool := 'a' ≤ c && c ≤ 'z'

/-- Whether the city pattern of contact.py:148 — a comma, optional
whitespace, then group 1: a capitalized word optionally followed by one
more capitalized word — matches at the start of `l`; returns group 1. -/
def cityMatchAt (l : List Char) : Option String :=
  match l with
  | ',' :: rest =>
    (match rest.dropWhile pyIsSpace with
     | c :: cs =>
       if upperAlpha c then
         let lows := cs.takeWhile lowerAlpha
         if lows.isEmpty then Option.none
         else
           let after := cs.drop lows.length
           let sp := after.takeWhile pyIsSpace
           (match after.drop sp.length with
            | c2 :: cs2 =>
              if !sp.isEmpty && upperAlpha c2 then
                let lows2 := cs2.takeWhile lowerAlpha
                if lows2.isEmpty then some (String.mk (c :: lows))
                else some (String.mk ((c :: lows) ++ sp ++ (c2 :: lows2)))
              else some (String.mk (c :: lows))
            | [] => some (String.mk (c :: lows)))
       else Option.none
     | [] => Option.none)
  | _ => Option.none

/-- Leftmost `re.search` of the city pattern. -/
def citySearchGo : List Char → Option String
  | [] => Option.none
  | c :: cs =>
    match cityMatchAt (c :: cs) with
    | some g => some g
    | Option.none => citySearchGo cs

/-- contact.py:147-153 — when no city was found but an address was, take
the first comma-introduced capitalized word of the address, defaulting
to `Seville`. -/
def contactCityFallback (ci : ContactInfo) : ContactInfo :=
  if ci.city == "" && ci.address != "" then
    match citySearchGo ci.address.toList with
    | some g => { ci with city := pyStripStr g }
    | Option.none => { ci with city := "Seville" }
  else ci

/-- contact.py:155-174 — when no social media was collected and the last
fetch produced a soup, take the page-wide social links. -/
def contactSocialFallback (ci : ContactInfo) (lastSoup : Option ContactDoc) :
    ContactInfo :=
  if ci.social_media.isEmpty then
    match lastSoup with
    | some d =>
      if d.pageSocialLinks.isEmpty then ci
      else { ci with social_media := d.pageSocialLinks }
    | Option.none => ci
  else ci

/-- The candidate URLs of `extract_contact_info` (contact.py:21-27), in
source order; the base URL itself is the last candidate. -/
def contactUrlCandidates (join : String → String → String) (baseUrl : String) :
    List String :=
  [join baseUrl "index.php/en/contact", join baseUrl "index.php/es/contacto",
   join baseUrl "contacto", join baseUrl "contact", baseUrl]

/-- contact.py:8-177 — `extract_contact_info`: run the URL loop starting
from the prefilled record, then the city and social-media fallbacks. -/
def extract_contact_info_model (env : FetchEnv ContactDoc) (baseUrl : String) :
    ContactInfo × List (String × Bool) :=
  let (ci, lastSoup, tr) :=
    contact_url_loop env.fetch baseUrl (initialContactInfo baseUrl) Option.none
      (contactUrlCandidates env.join baseUrl)
  (contactSocialFallback (contactCityFallback ci) lastSoup, tr)

theorem contact_url_loop_all_fail
    (fetch : String → Bool → Option ContactDoc) (baseUrl : String) :
    ∀ urls : List String, (∀ v ∈ urls, fetch v true = Option.none) →
      ∀ ci : ContactInfo,
        contact_url_loop fetch baseUrl ci Option.none urls =
          (ci, Option.none, urls.map (fun u => (u, true))) := by
  intro urls
  induction urls with
  | nil => intro _ ci; rfl
  | cons u us ih =>
    intro h ci
    simp only [contact_url_loop]
    rw [h u (List.mem_cons_self _ _)]
    dsimp only
    rw [ih (fun v hv => h v (List.mem_cons_of_mem _ hv)) ci]
    rfl

/-- The concrete environments refuting the original C7 reading: one
where every contact fetch fails, and one where the first research URL
yields a document without group candidates and the second yields one
group. -/
def envContactFail : FetchEnv ContactDoc :=
  { fetch := fun _ _ => Option.none, join := fun a b => a ++ "/" ++ b }

def researchDocNoGroups : ResearchDoc := { headers := [] }

def researchDocWithGroup : ResearchDoc :=
  { headers := [{ text := "Microelectronics Design Group",
                  nextP := some " CMOS circuits ",
                  nextUlItems := some ["Alice", "Bob"] }] }

def envResearch : ResearchEnv :=
  { fetch := fun url _ =>
      if url == "b/index.php/en/research" then some researchDocNoGroups
      else if url == "b/index.php/es/investigacion" then some researchDocWithGroup
      else Option.none,
    join := fun a b => a ++ "/" ++ b,
    structureFallback := [] }

/-- Counterexample to C7: the contact extractor does not return an empty
result when every candidate fetch fails — it returns the prefilled
record, whose institute name, country and website are non-empty — and
the research-groups extractor does not stop at the first candidate that
yields a document: its first fetch succeeds, yet the trace shows a
second fetch, whose document supplies the result. -/
theorem contact_prefilled_and_research_skips_first_document :
    extract_contact_info_model envContactFail "b" =
      (initialContactInfo "b",
       [("b/index.php/en/contact", true), ("b/index.php/es/contacto", true),
        ("b/contacto", true), ("b/contact", true), ("b", true)]) ∧
    (initialContactInfo "b").institute_name =
      "Institute of Microelectronics of Seville (IMSE-CNM)" ∧
    (initialContactInfo "b").country = "Spain" ∧
    (initialContactInfo "b").website = "b" ∧
    envResearch.fetch "b/index.php/en/research" true = some researchDocNoGroups ∧
    extract_research_groups_model envResearch "b" =
      ([⟨"Microelectronics Design Group", "CMOS circuits", ["Alice", "Bob"]⟩],
       [("b/index.php/en/research", true), ("b/index.php/es/investigacion", true)]) :=
  ⟨rfl, rfl, rfl, rfl, rfl, rfl⟩

/-- C7 (amended): candidate URLs are tried in the given order with
dynamic rendering requested on every attempt, and the staff and
publications extractors stop at the first candidate that yields a
document, compute their result only from that document (and the used
URL), and return an empty list when every candidate fails; the contact
extractor, however, returns its PREFILLED record (institute name,
country, website) when every candidate fails, the research-groups loop
continues past a fetched document whose group candidates are empty
(stopping only at a document with candidates), and the contact loop
continues past a document lacking address and phone while CARRYING the
fields that document contributed. -/
theorem extractors_try_candidates_in_order :
    (∀ (δ : Type) (fetch : String → Bool → Option δ)
        (pre : List String) (u : String) (post : List String) (d : δ),
      (∀ v ∈ pre, fetch v true = Option.none) → fetch u true = some d →
      findFirstDoc fetch (pre ++ u :: post) =
        (some (u, d), pre.map (fun v => (v, true)) ++ [(u, true)])) ∧
    (∀ (env : FetchEnv StaffDoc) (baseUrl : String),
      (∀ v ∈ staffUrlCandidates env.join baseUrl, env.fetch v true = Option.none) →
      extract_staff_model env baseUrl =
        ([], (staffUrlCandidates env.join baseUrl).map (fun u => (u, true)))) ∧
    (∀ (env : FetchEnv PubDoc) (baseUrl : String) (limit : Nat),
      (∀ v ∈ pubUrlCandidates env.join baseUrl, env.fetch v true = Option.none) →
      extract_publications_model env baseUrl limit =
        ([], (pubUrlCandidates env.join baseUrl).map (fun u => (u, true)))) ∧
    (∀ (env : FetchEnv StaffDoc) (baseUrl u : String) (d : StaffDoc)
        (tr : List (String × Bool)),
      findFirstDoc env.fetch (staffUrlCandidates env.join baseUrl) = (some (u, d), tr) →
      (extract_staff_model env baseUrl).1 = staffBody u d) ∧
    (∀ (env : FetchEnv PubDoc) (baseUrl u : String) (limit : Nat) (d : PubDoc)
        (tr : List (String × Bool)),
      findFirstDoc env.fetch (pubUrlCandidates env.join baseUrl) = (some (u, d), tr) →
      (extract_publications_model env baseUrl limit).1 =
        publicationsBody env.join u limit d) ∧
    (∀ (env : FetchEnv ContactDoc) (baseUrl : String),
      (∀ v ∈ contactUrlCandidates env.join baseUrl, env.fetch v true = Option.none) →
      extract_contact_info_model env baseUrl =
        (initialContactInfo baseUrl,
         (contactUrlCandidates env.join baseUrl).map (fun u => (u, true)))) ∧
    (∀ (fetch : String → Bool → Option ResearchDoc) (u : String)
        (us : List String) (d : ResearchDoc),
      fetch u true = some d → (groupCandidatesOf d).isEmpty = true →
      research_groups_url_loop fetch (u :: us) =
        ((research_groups_url_loop fetch us).1,
         (u, true) :: (research_groups_url_loop fetch us).2)) ∧
    (∀ (fetch : String → Bool → Option ResearchDoc) (u : String)
        (us : List String) (d : ResearchDoc),
      fetch u true = some d → (groupCandidatesOf d).isEmpty = false →
      research_groups_url_loop fetch (u :: us) = (groupCandidatesOf d, [(u, true)])) ∧
    (∀ (fetch : String → Bool → Option ContactDoc) (baseUrl : String)
        (ci : ContactInfo) (s : Option ContactDoc) (u : String)
        (us : List String) (d : ContactDoc),
      fetch u true = some d →
      ((((contactDivsUsed baseUrl u d).foldl applyContactDiv ci).address != "") ||
        (((contactDivsUsed baseUrl u d).foldl applyContactDiv ci).phone != "")) = false →
      contact_url_loop fetch baseUrl ci s (u :: us) =
        ((contact_url_loop fetch baseUrl
            ((contactDivsUsed baseUrl u d).foldl applyContactDiv ci) (some d) us).1,
         (contact_url_loop fetch baseUrl
            ((contactDivsUsed baseUrl u d).foldl applyContactDiv ci) (some d) us).2.1,
         (u, true) :: (contact_url_loop fetch baseUrl
            ((contactDivsUsed baseUrl u d).foldl applyContactDiv ci) (some d) us).2.2)) := by
  refine ⟨?_, ?_, ?_, ?_, ?_, ?_, ?_, ?_, ?_⟩
  · intro δ fetch pre u post d hpre hu
    exact findFirstDoc_first_success fetch pre u post d hpre hu
  · intro env baseUrl h
    rw [extract_staff_model, findFirstDoc_all_fail env.fetch _ h]
  · intro env baseUrl limit h
    rw [extract_publications_model, findFirstDoc_all_fail env.fetch _ h]
  · intro env baseUrl u d tr h
    rw [extract_staff_model, h]
  · intro env baseUrl u limit d tr h
    rw [extract_publications_model, h]
  · intro env baseUrl h
    simp only [extract_contact_info_model]
    rw [contact_url_loop_all_fail env.fetch baseUrl _ h (initialContactInfo baseUrl)]
    rfl
  · intro fetch u us d hf hempty
    rcases hr : research_groups_url_loop fetch us with ⟨r, tr⟩
    simp only [research_groups_url_loop]
    rw [hf]
    dsimp only
    rw [hempty]
    dsimp only
    rw [hr]
  · intro fetch u us d hf hne
    simp only [research_groups_url_loop]
    rw [hf]
    dsimp only
    rw [hne]
  · intro fetch baseUrl ci s u us d hf hcond
    rcases hr : contact_url_loop fetch baseUrl
        ((contactDivsUsed baseUrl u d).foldl applyContactDiv ci) (some d) us
      with ⟨r, s', tr⟩
    simp only [contact_url_loop]
    rw [hf]
    dsimp only
    rw [hcond]
    dsimp only
    rw [hr]

/-- The concrete C7 environment: the fifth staff candidate succeeds,
every other URL fails. -/
def emptyStaffDoc : StaffDoc :=
  { tables := [], personContainers := [], uls := [], mainContent := Option.none }

def c7Env : FetchEnv StaffDoc :=
  { fetch := fun url _ => if url == "b/staff" then some emptyStaffDoc else Option.none,
    join := fun a b => a ++ "/" ++ b }

/-- Witness for C7: with the first four staff candidates failing and the
fifth succeeding, the loop records exactly four failed dynamic attempts
before the success, the extractor's records come from the fetched
document alone, and with every contact fetch failing the contact
extractor returns the prefilled record with all five attempts traced. -/
theorem extractors_try_candidates_in_order_witness :
    findFirstDoc c7Env.fetch
        (["b/index.php/en/people", "b/index.php/es/personal",
          "b/index.php/en/staff", "b/personal"] ++ "b/staff" :: ["b/people", "b/team"]) =
      (some ("b/staff", emptyStaffDoc),
       [("b/index.php/en/people", true), ("b/index.php/es/personal", true),
        ("b/index.php/en/staff", true), ("b/personal", true), ("b/staff", true)]) ∧
    (extract_staff_model c7Env "b").1 = staffBody "b/staff" emptyStaffDoc ∧
    extract_contact_info_model envContactFail "b" =
      (initialContactInfo "b",
       (contactUrlCandidates envContactFail.join "b").map (fun u => (u, true))) :=
  ⟨extractors_try_candidates_in_order.1 StaffDoc c7Env.fetch
     ["b/index.php/en/people", "b/index.php/es/personal",
      "b/index.php/en/staff", "b/personal"] "b/staff" ["b/people", "b/team"]
     emptyStaffDoc (by decide) (by decide),
   extractors_try_candidates_in_order.2.2.2.1 c7Env "b" "b/staff" emptyStaffDoc
     [("b/index.php/en/people", true), ("b/index.php/es/personal", true),
      ("b/index.php/en/staff", true), ("b/personal", true), ("b/staff", true)]
     (by decide),
   extractors_try_candidates_in_order.2.2.2.2.2.1 envContactFail "b" (by decide)⟩

/-! ## The orchestrator's full scrape (scraper.py:309-398, claim C8)

Each extractor call depends on the network, so its outcome is a value of
the environment: `Except.ok v` is a normal return and `Except.error e`
models an exception raised inside that extractor.  `run_full_scrape`
itself contains no try/except around these calls (only the Selenium
shutdown at scraper.py:387-392 is guarded), which this model mirrors:
an error propagates immediately. -/

structure OrchestratorEnv where
  sections : Except String PyVal
  news : Except String PyVal
  research_groups : Except String PyVal
  publications : Except String PyVal
  staff : Except String PyVal
  contact_info : Except String PyVal
  projects : Except String PyVal
  project_contents : Except String PyVal
  all_pages : Except String PyVal

/-- One sequential step of `run_full_scrape`: call the extractor, abort
on a raised exception, otherwise extend the in-memory aggregate, persist
the result under `name`, and continue.  The returned triple is the final
outcome, the list of extractor steps reached, and the list of persisted
entity names (the external CSV/JSON writers are summarized as one saved
entry per successfully extracted entity type). -/
def orchStep (res : Except String PyVal) (name : String)
    (agg : List (String × PyVal))
    (k : List (String × PyVal) →
      Except String (List (String × PyVal)) × List String × List String) :
    Except String (List (String × PyVal)) × List String × List String :=
  match res with
  | .error e => (.error e, [name], [])
  | .ok v =>
    let (r, steps, saved) := k (agg ++ [(name, v)])
    (r, name :: steps, name :: saved)

/-- scraper.py:309-398 — `run_full_scrape`: the fixed extractor sequence
(sections, news, research groups, publications, staff, contact info,
projects), the conditional project-contents and subpages steps, then
normalization of the aggregate and the final persistence of `all_data`.
The Option failure of `cleanData` is surfaced as an error, mirroring an
uncaught exception inside the cleanup. -/
def run_full_scrape (env : OrchestratorEnv)
    (includeSubpages saveJson extractContent : Bool) :
    Except String (List (String × PyVal)) × List String × List String :=
  orchStep env.sections "sections" [] fun agg =>
  orchStep env.news "news" agg fun agg =>
  orchStep env.research_groups "research_groups" agg fun agg =>
  orchStep env.publications "publications" agg fun agg =>
  orchStep env.staff "staff" agg fun agg =>
  orchStep env.contact_info "contact_info" agg fun agg =>
  orchStep env.projects "projects" agg fun agg =>
  let finalize := fun (agg : List (String × PyVal)) =>
    match cleanData agg with
    | some cleaned =>
      ((.ok cleaned : Except String (List (String × PyVal))), ["clean"],
       if saveJson then ["all_data"] else [])
    | Option.none => ((.error "clean_data"), ["clean"], [])
  let subpagesStep := fun (agg : List (String × PyVal)) =>
    if includeSubpages then
      orchStep env.all_pages "all_pages" agg finalize
    else finalize agg
  let projectsVal := (agg.lookup "projects").getD PyVal.none
  if extractContent && isTruthy projectsVal then
    orchStep env.project_contents "project_contents" agg subpagesStep
  else subpagesStep agg

/-- The C8 environment: the news extractor raises, every other extractor
would succeed. -/
def c8Env : OrchestratorEnv :=
  { sections := .ok (.list [.dict [("title", .str "s")]]),
    news := .error "boom",
    research_groups := .ok (.list [.dict [("name", .str "g")]]),
    publications := .ok (.list [.dict [("title", .str "p")]]),
    staff := .ok (.list [.dict [("name", .str "Ana")]]),
    contact_info := .ok (.dict [("email", .str "x@y.z")]),
    projects := .ok (.list [.dict [("title", .str "proj")]]),
    project_contents := .ok (.dict [("u", .dict [("title", .str "t")])]),
    all_pages := .ok (.dict [("u", .dict [("title", .str "t")])]) }

/-- Counterexample to C8: `run_full_scrape` has no per-extractor
exception wrapper, so a fault inside the news extractor aborts the whole
run — staff (and every later entity type) is never extracted, and the
aggregate is neither normalized nor persisted (only the already-saved
`sections` file exists). -/
theorem run_full_scrape_fault_aborts_run :
    run_full_scrape c8Env false true true =
      (Except.error "boom", ["sections", "news"], ["sections"]) ∧
    "staff" ∉ (run_full_scrape c8Env false true true).2.1 ∧
    "all_data" ∉ (run_full_scrape c8Env false true true).2.2 := by
  have h : run_full_scrape c8Env false true true =
      (Except.error "boom", ["sections", "news"], ["sections"]) := rfl
  refine ⟨h, ?_, ?_⟩ <;> rw [h] <;> decide

/-- C8 (amended): the orchestrator's full-scrape run does not wrap the
per-entity extractor calls; an exception raised inside one extractor
propagates immediately — the run aborts at the faulting entity type,
later entity types are not extracted, and the aggregate is neither
normalized nor persisted (only entity types saved before the fault
remain). -/
theorem run_full_scrape_fault_propagation :
    (∀ (env : OrchestratorEnv) (i sj ec : Bool) (e : String),
      env.sections = .error e →
      run_full_scrape env i sj ec = (.error e, ["sections"], [])) ∧
    (∀ (env : OrchestratorEnv) (i sj ec : Bool) (s : PyVal) (e : String),
      env.sections = .ok s → env.news = .error e →
      run_full_scrape env i sj ec =
        (.error e, ["sections", "news"], ["sections"])) := by
  constructor
  · intro env i sj ec e hs
    rw [run_full_scrape, hs]
    rfl
  · intro env i sj ec s e hs hn
    rw [run_full_scrape, hs, orchStep]
    rw [hn]
    rfl

/-- Witness for the amended C8 at the concrete environment. -/
theorem run_full_scrape_fault_propagation_witness :
    run_full_scrape c8Env true true true =
      (Except.error "boom", ["sections", "news"], ["sections"]) :=
  run_full_scrape_fault_propagation.2 c8Env true true true
    (.list [.dict [("title", .str "s")]]) "boom" rfl rfl

/-! ## Deduplication is per-extractor, not universal (claim C1)

Only the projects, staff and publications extractors run a dedup loop;
the news (news.py), sections (base.py) and research-groups (research.py)
extractors have none, and `clean_data` — the last pass before
persistence — removes no duplicates either. -/

/-- A news entity holding the spec's two example titles, which only
differ in case and internal whitespace. -/
def c1NewsInput : List (String × PyVal) :=
  [("news", .list [.dict [("title", .str "Project Alpha 2020")],
                   .dict [("title", .str "project   alpha 2020")]])]

/-- Counterexample to C1: news records are never deduplicated — the
normalizer keeps both example records (merely collapsing the second
title's whitespace), so the final news list holds two records with the
same non-empty normalized key. -/
theorem news_records_not_deduplicated :
    cleanData c1NewsInput = some
      [("news", PyVal.list
        [.dict [("title", .str "Project Alpha 2020")],
         .dict [("title", .str "project alpha 2020")]])] ∧
    normKey "Project Alpha 2020" = normKey "project alpha 2020" ∧
    normKey "Project Alpha 2020" ≠ "" :=
  ⟨rfl, by decide, by decide⟩

/-- C1 (amended): in the three list-typed extractors that deduplicate —
projects, staff and publications — the final record list has at most one
record per normalized identifying-field key (lower-cased, non-word runs
collapsed to single spaces, trimmed), the survivor for a key is the
first input record carrying it, and the two example records differing
only in case/whitespace collapse to the single first record; news,
sections and research-group lists are not deduplicated. -/
theorem list_dedupe_unique_first_occurrence :
    (∀ l : List Project,
      (dedupeProjects l).Pairwise (fun a b => normKey a.title ≠ normKey b.title)) ∧
    (∀ (l : List Project) (r : Project), r ∈ dedupeProjects l →
      l.find? (fun q => normKey q.title == normKey r.title) = some r) ∧
    (∀ l : List Publication,
      (dedupePublications l).Pairwise (fun a b => normKey a.title ≠ normKey b.title)) ∧
    (∀ (l : List Publication) (r : Publication), r ∈ dedupePublications l →
      l.find? (fun q => normKey q.title == normKey r.title) = some r) ∧
    (∀ l : List StaffRec,
      (dedupeStaff l).Pairwise (fun a b => normKey (nameOf a) ≠ normKey (nameOf b))) ∧
    (∀ (l : List StaffRec) (r' : StaffRec), r' ∈ dedupeStaff l →
      ∃ r, r ∈ l ∧ r' = ensureStaffFields r ∧
        l.find? (fun q => normKey (nameOf q) == normKey (nameOf r')) = some r) ∧
    dedupeProjects [projAlpha, projAlphaDup] = [projAlpha] := by
  refine ⟨?_, ?_, ?_, ?_, ?_, ?_, by decide⟩
  · intro l
    exact dedupeByKeyAux_pairwise (fun p : Project => p.title) id (fun _ => rfl) l []
  · intro l r h
    rcases dedupeByKeyAux_first (fun p : Project => p.title) id (fun _ => rfl) l [] r h
      with ⟨q, _, hq, hfind⟩
    rw [show q = r from hq.symm] at hfind
    exact hfind
  · intro l
    exact dedupeByKeyAux_pairwise (fun p : Publication => p.title) id (fun _ => rfl) l []
  · intro l r h
    rcases dedupeByKeyAux_first (fun p : Publication => p.title) id (fun _ => rfl) l [] r h
      with ⟨q, _, hq, hfind⟩
    rw [show q = r from hq.symm] at hfind
    exact hfind
  · intro l
    exact dedupeByKeyAux_pairwise nameOf ensureStaffFields nameOf_ensureStaffFields l []
  · intro l r' h
    exact dedupeByKeyAux_first nameOf ensureStaffFields nameOf_ensureStaffFields l [] r' h

/-- Witness for the amended C1: the first-occurrence part instantiated on
the two concrete example records. -/
theorem list_dedupe_unique_first_occurrence_witness :
    projAlpha ∈ dedupeProjects [projAlpha, projAlphaDup] ∧
    [projAlpha, projAlphaDup].find?
      (fun q => normKey q.title == normKey projAlpha.title) = some projAlpha :=
  ⟨by decide,
   list_dedupe_unique_first_occurrence.2.1 [projAlpha, projAlphaDup] projAlpha
     (by decide)⟩
